import Mathlib

/-! # The packet engine of muon (`src/vpn.c`)

A shallow embedding of the reliability layer of the tunnel: the dedup filter
(`is_dup`), the ack queue (`flushack`, the piggyback in `tun_cb`), the
retransmit table (`acknowledge`, `retransmit`), the obfuscator and the two
event callbacks `tun_cb` and `udp_cb`.

Conventions of the embedding

* C arrays are functions from the index; a byte buffer is a function
  `Nat → Nat` from the byte offset.
* `int` and `long` variables are `Int`; `uint16_t` and `uint32_t` fields are
  `Nat`, reduced modulo `2 ^ 16` or `2 ^ 32` where the C code casts or stores; the
  arithmetic of `retransmit` on them, `long diff = now - stime` and `send++`, is
  reduced to 64 and 32 bits in two's complement (`wrap64`, `wrap32`).
* What the code gets from absent collaborators (the crypto unit, `rand`,
  uninitialised stack memory) is a field of `Env`; what it reads from the
  outside on one call (`tun_read`, `recvfrom`, `timer_now`) is an input record.
* External effects (`sendto`, `tun_write`) are appended to the trace `State.out`,
  oldest first.
-/

namespace Muon

/-! ## Constants -/

/-- The capacity of the ack queue, `ACK_LEN` in `vpn.c`. -/
def ACK_LEN : Nat := 256

/-- The capacity of the retransmit table, `UNACKED_LEN` in `vpn.c`. -/
def UNACKED_LEN : Nat := 1021

/-- The number of buckets of the dedup table, `DUP_LEN` in `vpn.c`. -/
def DUP_LEN : Nat := 1021

/-- Modelled from the spec: `PAYLOAD_OFFSET` is a macro of `vpn.h`, which is not among
the sources; the wire format of the spec puts the payload at offset 20. -/
def PAYLOAD_OFFSET : Nat := 20

/-! ## Data model -/

/-- Modelled from the spec: `pbuf_t` is declared in `vpn.h`, which is not among the
sources; the fields are the ones of the packet table of the spec, and `padding`
is the padding length that `obfuscate` stores and `sendpkt` reads. -/
structure Pbuf where
  nonce : Nat → Nat
  chksum : Nat
  ack : Nat
  flag : Nat
  len : Nat
  payload : Nat → Nat
  padding : Int

/-- The two values of `conf->mode`. -/
inductive Mode where
  | client : Mode
  | server : Mode
deriving DecidableEq

/-- The options of `conf_t` that `vpn.c` reads in the packet engine. -/
structure Conf where
  mode : Mode
  mtu : Int
  duplicate : Bool

/-- The static `remote`: the peer endpoint. -/
structure Remote where
  addr : Nat → Nat
  addrlen : Nat

/-- The static `ack`: checksums waiting to be acknowledged. -/
structure Ack where
  count : Int
  ack : Nat → Nat

/-- One element of the array `unacked`. -/
structure Unacked where
  send : Int
  stime : Int
  pbuf : Pbuf

/-- An external effect of the engine. `sendto plain n addr addrlen` is the call
`sendto(sock, pbuf, n, 0, &remote.addr, remote.addrlen)` of `sendpkt`, where `plain` is
the packet as it was handed to `crypto_encrypt`; `tun_write payload len` is the call
`tun_write(tun, pbuf->payload, pbuf->len)` of `udp_cb`. -/
inductive Event where
  | sendto (plain : Pbuf) (n : Int) (addr : Nat → Nat) (addrlen : Nat) : Event
  | tun_write (payload : Nat → Nat) (len : Nat) : Event

/-- What the engine takes from collaborators that are not among the sources.
`digest flag len bytes` is the keyed hash of the authenticated region,
`crypto_decrypt p n` returns the status of `crypto_decrypt` and the buffer it
leaves, `crypto_encrypt` the buffer after encryption in place, `rand seed k` is the
result of the `k`-th call of `rand()` after `srand(seed)`, and `uninit` is the
content of a `pbuf_t` on the stack that has not been written yet. -/
structure Env where
  digest : Nat → Nat → List Nat → Nat
  crypto_decrypt : Pbuf → Int → Int × Pbuf
  crypto_encrypt : Pbuf → Pbuf
  rand : Nat → Nat → Nat
  uninit : Pbuf

/-- The module-scope state of `vpn.c`, the state of `rand` and the trace of effects.
`hash` is the static table of `is_dup`. -/
structure State where
  remote : Remote
  ack : Ack
  unacked : Nat → Unacked
  hash : Nat → Nat → Nat
  seed : Nat
  pos : Nat
  out : List Event

/-! ## Helpers for C idioms -/

/-- The loop `for (int i = 0; i < n; i++) body(i)` on a state `σ`. -/
def forLoop {σ : Type} : Nat → (Nat → σ → σ) → σ → σ
  | 0, _, s => s
  | n + 1, body, s => body n (forLoop n body s)

/-- The call `memcpy(dest, src, n)` on byte buffers. -/
def memcpy (dest src : Nat → Nat) (n : Nat) : Nat → Nat :=
  fun i => if i < n then src i else dest i

/-- The test `memcmp(a, b, n) == 0`. -/
def memcmp_eq (a b : Nat → Nat) (n : Nat) : Bool :=
  (List.range n).all (fun i => a i == b i)

/-- The bytes of an array of `uint32_t`, least significant byte first. -/
def bytes_of_u32s (a : Nat → Nat) : Nat → Nat :=
  fun b => a (b / 4) / 256 ^ (b % 4) % 256

/-- The element `((uint32_t *)m)[i]` of a byte buffer, least significant byte first. -/
def u32_at (m : Nat → Nat) (i : Nat) : Nat :=
  m (4 * i) + 256 * m (4 * i + 1) + 65536 * m (4 * i + 2) + 16777216 * m (4 * i + 3)

/-- The value a 64-bit `long` in two's complement holds for the integer `x`: the result of
`long` arithmetic whose exact value is `x`. -/
def wrap64 (x : Int) : Int := (x + 2 ^ 63) % 2 ^ 64 - 2 ^ 63

/-- The value a 32-bit `int` in two's complement holds for the integer `x`: the result of
`int` arithmetic whose exact value is `x`. -/
def wrap32 (x : Int) : Int := (x + 2 ^ 31) % 2 ^ 32 - 2 ^ 31

/-- The assignment `a[h][k] = v` on a two-dimensional array. -/
def set2 (a : Nat → Nat → Nat) (h k v : Nat) : Nat → Nat → Nat :=
  Function.update a h (Function.update (a h) k v)

/-! ## The operations of `vpn.c` -/

/-- Modelled from the spec: `crypto_hash` is defined in `crypto.c`, which is not among
the sources; it computes a 32-bit keyed digest over the flag, the length and the
first `len` payload bytes and stores it in `chksum`. -/
def crypto_hash (env : Env) (p : Pbuf) : Pbuf :=
  { p with chksum := env.digest p.flag p.len ((List.range p.len).map p.payload) % 2 ^ 32 }

/-- The function `copypkt(dest, src)`. -/
def copypkt (dest src : Pbuf) : Pbuf :=
  { dest with
    chksum := src.chksum
    ack := src.ack
    flag := src.flag
    len := src.len
    payload := memcpy dest.payload src.payload src.len }

/-- The padding length chosen by `obfuscate` for the headroom `conf->mtu - pbuf->len`
when `pbuf->len < conf->mtu`, from the value `r` of the call of `rand()`. -/
def pad_len (mtu : Int) (len : Nat) (r : Nat) : Int :=
  let max : Int := mtu - len
  if max > 1000 then (r % 251 : Nat)
  else if max > 500 then ((r % 251 : Nat) : Int) + 99
  else if max > 200 then ((r % 151 : Nat) : Int) + 49
  else if ((r % 199 : Nat) : Int) > max then max else (r % 199 : Nat)

/-- The function `obfuscate(pbuf)`; `draw k` is the result of the `k`-th call of `rand()`
made by this call. Returns the packet and the number of calls of `rand()` made. -/
def obfuscate (conf : Conf) (draw : Nat → Nat) (p : Pbuf) : Pbuf × Nat :=
  let p1 : Pbuf :=
    { p with nonce := forLoop 8 (fun i nonce => Function.update nonce i (draw i % 256)) p.nonce }
  if (p1.len : Int) < conf.mtu then
    let p2 : Pbuf := { p1 with padding := pad_len conf.mtu p1.len (draw 8) }
    let k : Nat := p2.padding.toNat
    ({ p2 with
        payload := forLoop k
          (fun j pl => Function.update pl (p2.len + j) (draw (9 + j) % 256)) p2.payload },
     9 + k)
  else
    ({ p1 with padding := 0 }, 8)

/-- The function `sendpkt(pbuf)`: returns the state and the buffer `pbuf` points to. -/
def sendpkt (env : Env) (conf : Conf) (s : State) (p : Pbuf) : State × Pbuf :=
  if s.remote.addrlen ≠ 0 then
    let o := obfuscate conf (fun k => env.rand s.seed (s.pos + k)) p
    let n : Int := (PAYLOAD_OFFSET : Int) + (o.1.len : Int) + o.1.padding
    ({ s with
        pos := s.pos + o.2
        out := s.out ++ [Event.sendto o.1 n s.remote.addr s.remote.addrlen] },
     env.crypto_encrypt o.1)
  else
    (s, p)

/-- The function `is_dup(chksum)` on its static table: the result and the new table. -/
def is_dup (hash : Nat → Nat → Nat) (chksum : Nat) : Bool × (Nat → Nat → Nat) :=
  let h := chksum % DUP_LEN
  let dup := decide (hash h 0 = chksum) || decide (hash h 1 = chksum)
  let hash1 := set2 hash h 1 (hash h 0)
  let hash2 := set2 hash1 h 0 chksum
  (dup, hash2)

/-- The function `flushack()`. -/
def flushack (env : Env) (conf : Conf) (s : State) : State :=
  if s.ack.count ≠ 0 then
    let len : Nat := (s.ack.count * 4 % 65536).toNat
    let pkt0 : Pbuf :=
      { env.uninit with
        len := len
        payload := memcpy env.uninit.payload (bytes_of_u32s s.ack.ack) len
        flag := 2 }
    let pkt := crypto_hash env pkt0
    let tmp := copypkt env.uninit pkt
    let s1 := (sendpkt env conf s tmp).1
    let s2 := (sendpkt env conf s1 pkt).1
    { s2 with ack := { s2.ack with count := 0 } }
  else
    { s with ack := { s.ack with count := 0 } }

/-- The body of the loop of `acknowledge` at index `i`. -/
def acknowledge_body (chksum : Nat) (i : Nat) (t : Nat → Unacked) : Nat → Unacked :=
  if (t i).send ≠ 0 ∧ (t i).pbuf.chksum = chksum then
    Function.update t i { t i with send := 0 }
  else t

/-- The function `acknowledge(chksum)` on the retransmit table. -/
def acknowledge (chksum : Nat) (t : Nat → Unacked) : Nat → Unacked :=
  forLoop UNACKED_LEN (acknowledge_body chksum) t

/-- The body of the outer loop of `retransmit` at index `i`; `diff` is a `long` and `send`
an `int`, so the subtraction and the increment are reduced to 64 and 32 bits. -/
def retransmit_body (env : Env) (conf : Conf) (now : Int) (i : Nat) (s : State) : State :=
  if (s.unacked i).send ≠ 0 then
    let diff := wrap64 (now - (s.unacked i).stime)
    if diff > 200 then
      let u1 : Unacked :=
        { s.unacked i with send := wrap32 ((s.unacked i).send + 1), stime := now }
      let s1 : State := { s with unacked := Function.update s.unacked i u1 }
      let r := forLoop (s1.unacked i).send.toNat
        (fun _ (st : State × Pbuf) => sendpkt env conf st.1 (copypkt st.2 (st.1.unacked i).pbuf))
        (s1, env.uninit)
      let s2 := r.1
      if (s2.unacked i).send ≥ 4 then
        { s2 with unacked := Function.update s2.unacked i { s2.unacked i with send := 0 } }
      else s2
    else s
  else s

/-- The function `retransmit()`; `now` is the value of `timer_now()`. -/
def retransmit (env : Env) (conf : Conf) (now : Int) (s : State) : State :=
  forLoop UNACKED_LEN (retransmit_body env conf now) s

/-- The function `heartbeat()`; `now` is the value of `timer_now()`. -/
def heartbeat (env : Env) (conf : Conf) (now : Int) (s : State) : State :=
  let s1 : State := { s with seed := (now % 2 ^ 32).toNat, pos := 0 }
  let pkt := crypto_hash env { env.uninit with len := 0 }
  (sendpkt env conf s1 pkt).1

/-- What one call of `tun_cb` reads from outside: the result `n` of `tun_read`, the
bytes it stored, and the value of `timer_now()`. -/
structure TunIn where
  n : Int
  data : Nat → Nat
  now : Int

/-- The packet `tun_cb` builds before it records and sends it: the payload and length
from `tun_read`, the flag and the piggybacked ack from the ack queue, and the hash. -/
def tun_build (env : Env) (s : State) (pbuf : Pbuf) (inp : TunIn) : Pbuf :=
  let b0 : Pbuf := { pbuf with payload := memcpy pbuf.payload inp.data inp.n.toNat }
  let b1 : Pbuf := { b0 with len := (inp.n % 65536).toNat }
  let b2 : Pbuf :=
    if s.ack.count ≠ 0 then { b1 with flag := 1, ack := s.ack.ack (s.ack.count - 1).toNat }
    else { b1 with flag := 0 }
  crypto_hash env b2

/-- The index at which the scan `for (i = 0; i < n; i++) if (unacked[i].send == 0) break;`
of `tun_cb` stops, if it does. -/
def scan_free (t : Nat → Unacked) : Nat → Option Nat
  | 0 => none
  | n + 1 =>
    match scan_free t n with
    | some i => some i
    | none => if (t n).send = 0 then some n else none

/-- The block of `tun_cb` that adds the packet `b` to `unacked`: the first free slot, if
there is one, gets `stime = now`, `send = 1` and a copy of the packet. -/
def tun_record (s : State) (now : Int) (b : Pbuf) : State :=
  match scan_free s.unacked UNACKED_LEN with
  | some i =>
    let u : Unacked := { send := 1, stime := now, pbuf := copypkt (s.unacked i).pbuf b }
    { s with unacked := Function.update s.unacked i u }
  | none => s

/-- The function `tun_cb(pbuf)`: returns the state and the buffer `pbuf` points to. -/
def tun_cb (env : Env) (conf : Conf) (s : State) (pbuf : Pbuf) (inp : TunIn) : State × Pbuf :=
  if inp.n ≤ 0 then
    (s, { pbuf with payload := memcpy pbuf.payload inp.data inp.n.toNat })
  else
    let b3 := tun_build env s pbuf inp
    let s1 : State :=
      if s.ack.count ≠ 0 then { s with ack := { s.ack with count := s.ack.count - 1 } }
      else s
    let s2 : State := tun_record s1 inp.now b3
    let s3 : State :=
      if conf.duplicate then
        let r1 := sendpkt env conf s2 (copypkt env.uninit b3)
        (sendpkt env conf r1.1 (copypkt r1.2 b3)).1
      else s2
    sendpkt env conf s3 b3

/-- What one call of `udp_cb` reads from outside: the result `n` of `recvfrom`, the
buffer `raw` it leaves, the source address, and the value of `timer_now()`. -/
structure UdpIn where
  n : Int
  raw : Pbuf
  addr : Nat → Nat
  addrlen : Nat
  now : Int

/-- The last block of `udp_cb`: the update of `remote` on the server. -/
def update_remote (conf : Conf) (s : State) (addr : Nat → Nat) (addrlen : Nat) : State :=
  if conf.mode = Mode.server then
    if s.remote.addrlen ≠ addrlen ∨ memcmp_eq s.remote.addr addr addrlen = false then
      { s with remote := { addr := memcpy s.remote.addr addr addrlen, addrlen := addrlen } }
    else s
  else s

/-- The function `udp_cb(pbuf)`: returns the state and the buffer `pbuf` points to. -/
def udp_cb (env : Env) (conf : Conf) (s : State) (inp : UdpIn) : State × Pbuf :=
  if inp.n < (PAYLOAD_OFFSET : Int) then (s, inp.raw)
  else
    let d := env.crypto_decrypt inp.raw inp.n
    let pbuf := d.2
    if d.1 ≠ 0 then (s, pbuf)
    else if pbuf.len = 0 then
      if conf.mode = Mode.server then (heartbeat env conf inp.now s, pbuf) else (s, pbuf)
    else
      let r := is_dup s.hash pbuf.chksum
      let s1 : State := { s with hash := r.2 }
      if r.1 then (s1, pbuf)
      else if pbuf.flag &&& 2 ≠ 0 then
        ({ s1 with unacked :=
            forLoop (pbuf.len / 4) (fun i t => acknowledge (u32_at pbuf.payload i) t) s1.unacked },
         pbuf)
      else
        let s2 : State :=
          if pbuf.flag &&& 1 ≠ 0 then { s1 with unacked := acknowledge pbuf.ack s1.unacked }
          else s1
        let s3 : State := if s2.ack.count = (ACK_LEN : Int) then flushack env conf s2 else s2
        let s4 : State :=
          { s3 with ack :=
              { ack := Function.update s3.ack.ack s3.ack.count.toNat pbuf.chksum
                count := s3.ack.count + 1 } }
        let s5 : State := { s4 with out := s4.out ++ [Event.tun_write pbuf.payload pbuf.len] }
        (update_remote conf s5 inp.addr inp.addrlen, pbuf)

/-! ## The event loop -/

/-- One thing the loop of `vpn_run` does: a callback on a ready descriptor or a timer. -/
inductive Input where
  | tun (i : TunIn) : Input
  | udp (i : UdpIn) : Input
  | flush : Input
  | retrans (now : Int) : Input
  | keepalive (now : Int) : Input

/-- One step of the loop on the module state and the buffer `pbuf` of `vpn_run`. -/
def step (env : Env) (conf : Conf) (e : State × Pbuf) : Input → State × Pbuf
  | Input.tun i => tun_cb env conf e.1 e.2 i
  | Input.udp i => udp_cb env conf e.1 i
  | Input.flush => (flushack env conf e.1, e.2)
  | Input.retrans now => (retransmit env conf now e.1, e.2)
  | Input.keepalive now => (heartbeat env conf now e.1, e.2)

/-- A run of the loop over a list of inputs. -/
def run (env : Env) (conf : Conf) (e : State × Pbuf) (l : List Input) : State × Pbuf :=
  l.foldl (step env conf) e

/-- A packet buffer in zero-initialised storage. -/
def zero_pbuf : Pbuf :=
  { nonce := fun _ => 0, chksum := 0, ack := 0, flag := 0, len := 0, payload := fun _ => 0,
    padding := 0 }

/-- The state after `vpn_init`: static storage is zero, and on the client `remote` is the
resolved address `srv` of the server; `rand` is in its state before any `srand`. -/
def init_state (conf : Conf) (srv : Remote) : State :=
  { remote :=
      if conf.mode = Mode.client then
        { addr := memcpy (fun _ => 0) srv.addr srv.addrlen, addrlen := srv.addrlen }
      else { addr := fun _ => 0, addrlen := 0 }
    ack := { count := 0, ack := fun _ => 0 }
    unacked := fun _ => { send := 0, stime := 0, pbuf := zero_pbuf }
    hash := fun _ _ => 0
    seed := 1
    pos := 0
    out := [] }

/-! ## Runs of the dedup filter and the readings of its specification -/

/-- The static table of `is_dup` when the program starts. -/
def init_hash : Nat → Nat → Nat := fun _ _ => 0

/-- The table of `is_dup` after the calls `is_dup(x)` for the `x` of `l`, in order. -/
def dedup_table (hash : Nat → Nat → Nat) (l : List Nat) : Nat → Nat → Nat :=
  l.foldl (fun h x => (is_dup h x).2) hash

/-- The values of `l` that fall in bucket `b`, most recent first. -/
def bucket_history (l : List Nat) (b : Nat) : List Nat :=
  (l.filter (fun x => decide (x % DUP_LEN = b))).reverse

/-- The distinct values of a list, each at its first place. -/
def keep_first : List Nat → List Nat
  | [] => []
  | x :: xs => x :: (keep_first xs).filter (fun y => decide (y ≠ x))

/-- The words of the spec: the two most recent distinct values of bucket `b` among the
values `l` passed so far. -/
def recent_distinct2 (l : List Nat) (b : Nat) : List Nat :=
  (keep_first (bucket_history l b)).take 2

/-- The two most recent values of bucket `b` among the values `l` passed so far,
repetitions counted, the zero-initialised table standing for two earlier zeros. -/
def recent2 (l : List Nat) (b : Nat) : List Nat :=
  (bucket_history l b ++ [0, 0]).take 2


/-! ## Vocabulary for the retransmit table -/

/-- Slot `i` of the table is in use and stores the checksum `c`. -/
def stores (t : Nat → Unacked) (c : Nat) (i : Nat) : Prop :=
  (t i).send ≠ 0 ∧ (t i).pbuf.chksum = c

instance (t : Nat → Unacked) (c i : Nat) : Decidable (stores t c i) := by
  unfold stores; infer_instance

/-- A slot after it is freed: `send = 0`, the other fields as they were. -/
def freed (u : Unacked) : Unacked := { u with send := 0 }

/-- A table with slot 0 in use, storing a packet of checksum 7. -/
def single_table : Nat → Unacked :=
  fun i => { send := if i < 1 then 1 else 0, stime := 0, pbuf := { zero_pbuf with chksum := 7 } }

/-! ## The padding table of the specification -/

/-- The words of the spec: the range of the padding length for the headroom
`max = MTU - len`. -/
def pad_range (max v : Int) : Prop :=
  if max > 1000 then 0 ≤ v ∧ v ≤ 250
  else if max > 500 then 99 ≤ v ∧ v ≤ 349
  else if max > 200 then 49 ≤ v ∧ v ≤ 199
  else if max > 0 then 0 ≤ v ∧ v ≤ min 198 max
  else v = 0

/-! ## Vocabulary for packets and traces -/

/-- The packet `q` carries the same `chksum`, `ack`, `flag`, `len` and payload bytes
`payload[0..len)` as `p`. -/
def same_pkt (q p : Pbuf) : Prop :=
  q.chksum = p.chksum ∧ q.ack = p.ack ∧ q.flag = p.flag ∧ q.len = p.len ∧
    ∀ i, i < p.len → q.payload i = p.payload i

/-- The packet handed to `sendto` by an event, if it is one. -/
def Event.pkt : Event → Option Pbuf
  | Event.sendto p _ _ _ => some p
  | Event.tun_write _ _ => none

/-- The packets of the `sendto` events of a trace, in order. -/
def sent (l : List Event) : List Pbuf := l.filterMap Event.pkt

/-- The number of `sendto` events of a trace whose packet has checksum `c`. -/
def sent_count (c : Nat) (l : List Event) : Nat :=
  ((sent l).filter (fun p => decide (p.chksum = c))).length

/-- The number of `tun_write` events of a trace. -/
def tun_write_count (l : List Event) : Nat :=
  (l.filter (fun e => match e with
    | Event.tun_write _ _ => true
    | Event.sendto _ _ _ _ => false)).length

/-- The packet `sendpkt` hands to `crypto_encrypt` and `sendto` for `p` in state `s`. -/
def wire (env : Env) (conf : Conf) (s : State) (p : Pbuf) : Pbuf :=
  (obfuscate conf (fun k => env.rand s.seed (s.pos + k)) p).1

/-! ## Concrete collaborators and inputs for the examples -/

/-- A keyed hash for the examples: the flag plus the sum of the payload bytes. -/
def digest0 (flag _len : Nat) (bytes : List Nat) : Nat := flag + bytes.sum

/-- Collaborators for the examples: the identity cipher, a decrypt that checks the
length and the hash as the spec describes, `rand()` returning 0 and zeroed stack memory. -/
def env0 : Env :=
  { digest := digest0
    crypto_decrypt := fun p n =>
      if (PAYLOAD_OFFSET : Int) + p.len ≤ n ∧
          p.chksum = digest0 p.flag p.len ((List.range p.len).map p.payload) % 2 ^ 32 then (0, p)
      else (-1, p)
    crypto_encrypt := fun p => p
    rand := fun _ _ => 0
    uninit := zero_pbuf }

/-- A server configuration with MTU 1400 and no triplication. -/
def server_conf : Conf := { mode := Mode.server, mtu := 1400, duplicate := false }

/-- A client configuration with MTU 1400 and no triplication. -/
def client_conf : Conf := { mode := Mode.client, mtu := 1400, duplicate := false }

/-- A client configuration with MTU 1400 and triplication. -/
def client_conf_dup : Conf := { mode := Mode.client, mtu := 1400, duplicate := true }

/-- A peer address of 16 bytes. -/
def addr_a : Remote := { addr := fun i => if i < 16 then i + 1 else 0, addrlen := 16 }

/-- A heartbeat datagram from `addr_a`: 20 bytes on the wire, `len = 0`. -/
def heartbeat_in : UdpIn :=
  { n := 20, raw := zero_pbuf, addr := addr_a.addr, addrlen := addr_a.addrlen, now := 0 }

/-- The ack-bundle packet `flushack` builds from the ack queue of `s`, after
`crypto_hash`. -/
def ack_bundle (env : Env) (s : State) : Pbuf :=
  crypto_hash env
    { env.uninit with
      len := (s.ack.count * 4 % 65536).toNat
      payload := memcpy env.uninit.payload (bytes_of_u32s s.ack.ack) (s.ack.count * 4 % 65536).toNat
      flag := 2 }

/-- The peer endpoint holds the address `addr` of length `addrlen`. -/
def peer_is (r : Remote) (addr : Nat → Nat) (addrlen : Nat) : Prop :=
  r.addrlen = addrlen ∧ ∀ i, i < addrlen → r.addr i = addr i

/-! ## Vocabulary for inbound datagrams -/

/-- The datagram is long enough and passes `crypto_decrypt` (decrypt and verify). -/
def valid (env : Env) (inp : UdpIn) : Prop :=
  (PAYLOAD_OFFSET : Int) ≤ inp.n ∧ (env.crypto_decrypt inp.raw inp.n).1 = 0

instance (env : Env) (inp : UdpIn) : Decidable (valid env inp) := by
  unfold valid; infer_instance

/-- The packet `crypto_decrypt` leaves in the buffer. -/
def plain (env : Env) (inp : UdpIn) : Pbuf := (env.crypto_decrypt inp.raw inp.n).2

/-- The step of `udp_cb` that processes the piggybacked ack of a data packet `p`. -/
def piggyback (s : State) (p : Pbuf) : State :=
  if p.flag &&& 1 ≠ 0 then { s with unacked := acknowledge p.ack s.unacked } else s

/-- The steps of `udp_cb` that enqueue the checksum of a data packet `p`, after a flush
of a full queue, and write its payload to tun. -/
def enqueue_write (env : Env) (conf : Conf) (s : State) (p : Pbuf) : State :=
  let s3 : State := if s.ack.count = (ACK_LEN : Int) then flushack env conf s else s
  let s4 : State :=
    { s3 with ack :=
        { ack := Function.update s3.ack.ack s3.ack.count.toNat p.chksum
          count := s3.ack.count + 1 } }
  { s4 with out := s4.out ++ [Event.tun_write p.payload p.len] }

/-- The state `udp_cb` reaches for an accepted data packet `p` before its last block, the
update of `remote`: the dedup table has the checksum, a piggybacked ack is processed, the
checksum is enqueued after a flush of a full queue, and the payload is written to tun. -/
def accepted (env : Env) (conf : Conf) (s : State) (p : Pbuf) : State :=
  enqueue_write env conf (piggyback { s with hash := (is_dup s.hash p.chksum).2 } p) p

/-- A data datagram from `addr_a`: one payload byte 5, checksum 5, 21 bytes on the wire. -/
def data_in : UdpIn :=
  { n := 21
    raw := { zero_pbuf with len := 1, chksum := 5, payload := fun _ => 5 }
    addr := addr_a.addr, addrlen := addr_a.addrlen, now := 0 }

/-- A data datagram from `addr_a` whose keyed hash is 0: one payload byte 0. -/
def zero_hash_in : UdpIn :=
  { n := 21
    raw := { zero_pbuf with len := 1 }
    addr := addr_a.addr, addrlen := addr_a.addrlen, now := 0 }

/-- The ack queue after one checksum is appended: a full queue is emptied first. -/
def enqueued (a : Ack) (c : Nat) : Ack :=
  { ack := Function.update a.ack (if a.count = (ACK_LEN : Int) then 0 else a.count.toNat) c
    count := (if a.count = (ACK_LEN : Int) then 0 else a.count) + 1 }

/-- The packet `q` is an ack bundle of the first `k` entries of the queue `a`: flag
`0x0002`, `len = 4 * k`, and the payload read as an array of `uint32_t` is `a[0..k)`. -/
def is_bundle_of (q : Pbuf) (a : Nat → Nat) (k : Nat) : Prop :=
  q.flag = 2 ∧ q.len = 4 * k ∧ (∀ b, b < 4 * k → q.payload b = bytes_of_u32s a b) ∧
    ∀ i, i < k → u32_at q.payload i = a i % 2 ^ 32

/-- A full ack queue: the checksums 1, 2, ..., 256. -/
def full_ack : Ack := { count := 256, ack := fun i => i + 1 }

/-! ## Runs of `tun_cb` -/

/-- The calls of `tun_cb` for the reads `ins`, in order, on the state and the buffer. -/
def tun_run (env : Env) (conf : Conf) (e : State × Pbuf) (ins : List TunIn) : State × Pbuf :=
  ins.foldl (fun e i => tun_cb env conf e.1 e.2 i) e

/-- A state with a known peer whose ack queue holds the checksums 10, 11, 12. -/
def three_acks : State :=
  { init_state client_conf addr_a with ack := { count := 3, ack := fun i => i + 10 } }

/-- A read of one byte 9 from tun at time 0. -/
def tun_in : TunIn := { n := 1, data := fun _ => 9, now := 0 }

/-! ## Vocabulary for the invariant of the retransmit table -/

/-- At most one in-use slot of the table stores any given checksum. -/
def uniq (t : Nat → Unacked) : Prop :=
  ∀ i j, i < UNACKED_LEN → j < UNACKED_LEN → (t i).send ≠ 0 → (t j).send ≠ 0 →
    (t i).pbuf.chksum = (t j).pbuf.chksum → i = j

/-- Every in-use slot of `t2` was in use in `t1` with the same checksum. -/
def shrinks (t1 t2 : Nat → Unacked) : Prop :=
  ∀ i, i < UNACKED_LEN → (t2 i).send ≠ 0 →
    (t1 i).send ≠ 0 ∧ (t2 i).pbuf.chksum = (t1 i).pbuf.chksum

/-- Along the run of the inputs `l` from `e`, every call of `tun_cb` that reads a datagram
builds a packet whose checksum no in-use slot stores at that moment. -/
def fresh_tuns (env : Env) (conf : Conf) : State × Pbuf → List Input → Prop
  | _, [] => True
  | e, x :: xs =>
    (match x with
      | Input.tun i =>
        0 < i.n → ∀ j, j < UNACKED_LEN → ¬ stores e.1.unacked (tun_build env e.1 e.2 i).chksum j
      | _ => True) ∧
    fresh_tuns env conf (step env conf e x) xs

/-! ## The retransmit schedule of one slot -/

/-- A slot is due at time `now`: in use, and `long diff = now - stime` is more than 200. -/
def due (now : Int) (u : Unacked) : Prop := u.send ≠ 0 ∧ wrap64 (now - u.stime) > 200

instance (now : Int) (u : Unacked) : Decidable (due now u) := by
  unfold due; infer_instance

/-- What one call of `retransmit` at time `now` makes of a slot; `send++` is `int`
arithmetic. -/
def slot_step (now : Int) (u : Unacked) : Unacked :=
  if due now u then
    { u with send := if wrap32 (u.send + 1) ≥ 4 then 0 else wrap32 (u.send + 1), stime := now }
  else u

/-- The number of calls of `sendpkt` one call of `retransmit` at time `now` makes for a
slot: the bound of the inner loop is the incremented send count. -/
def slot_copies (now : Int) (u : Unacked) : Nat :=
  if due now u then (wrap32 (u.send + 1)).toNat else 0

/-- The times `ts` are ticks of a timer with a monotonic clock and a period of at most 10
ms that runs from time `t0`: each is at or after the one before and no more than 10 ms
later, the first counted from `t0`. -/
def spaced (t0 : Int) : List Int → Prop
  | [] => True
  | t :: ts => t0 ≤ t ∧ t ≤ t0 + 10 ∧ spaced t ts

/-- The decision procedure for `spaced`. -/
def spaced_dec : (t0 : Int) → (ts : List Int) → Decidable (spaced t0 ts)
  | _, [] => isTrue trivial
  | t0, t :: ts =>
    match spaced_dec t ts with
    | isTrue h =>
      if h1 : t0 ≤ t ∧ t ≤ t0 + 10 then isTrue ⟨h1.1, h1.2, h⟩
      else isFalse (fun hh => h1 ⟨hh.1, hh.2.1⟩)
    | isFalse h => isFalse (fun hh => h hh.2.2)

instance (t0 : Int) (ts : List Int) : Decidable (spaced t0 ts) := spaced_dec t0 ts

/-- An input the loop can really get: a datagram from `recvfrom` has a source address. -/
def has_source : Input → Prop
  | Input.udp i => i.addrlen ≠ 0
  | _ => True

/-- The peer endpoint is known on the client, and wherever the ack queue is not empty. -/
def peer_inv (conf : Conf) (s : State) : Prop :=
  (conf.mode = Mode.client → s.remote.addrlen ≠ 0) ∧
  (s.ack.count ≠ 0 → s.remote.addrlen ≠ 0)

/-- The retransmit table of a client after `tun_cb` has read the same datagram twice from
the initial state. -/
def twice_table : Nat → Unacked :=
  (run env0 client_conf (init_state client_conf addr_a, zero_pbuf)
    [Input.tun tun_in, Input.tun tun_in]).1.unacked

/-! ## Vocabulary for the later properties -/

/-- A datagram of 5 bytes from `addr_a`, shorter than the header. -/
def short_in : UdpIn :=
  { n := 5, raw := zero_pbuf, addr := addr_a.addr, addrlen := addr_a.addrlen, now := 0 }

/-- The index `udp_cb` writes in `ack.ack` when it enqueues a checksum on the queue `a`:
`ack.count` after the flush of a full queue. -/
def write_index (a : Ack) : Int := if a.count = (ACK_LEN : Int) then 0 else a.count

/-- The bounds of the ack queue: `0 ≤ count ≤ 256`. -/
def count_ok (a : Ack) : Prop := 0 ≤ a.count ∧ a.count ≤ (ACK_LEN : Int)

/-- The events of the slots `0..n-1` of a loop over the table, slot by slot in the order
of the loop; `ess i` are the events of slot `i`. -/
def gather (ess : Nat → List Event) : Nat → List Event
  | 0 => []
  | n + 1 => gather ess n ++ ess n

/-- Every send count of the table lies in `0..3`. -/
def send_ok (t : Nat → Unacked) : Prop := ∀ i, 0 ≤ (t i).send ∧ (t i).send ≤ 3

/-- A table with slot 0 in use since time 0, sent twice, and the other slots free. -/
def due_table : Nat → Unacked :=
  fun i => { send := if i < 1 then 2 else 0, stime := 0, pbuf := { zero_pbuf with chksum := 7 } }

/-- A state with a known peer whose ack queue holds the checksums 10 and 11. -/
def two_acks : State :=
  { init_state client_conf addr_a with ack := { count := 2, ack := fun i => i + 10 } }

/-! ## One recorded packet along a run of the loop -/

instance (q p : Pbuf) : Decidable (same_pkt q p) := by
  unfold same_pkt; infer_instance

/-- The datagram makes `udp_cb` look for the checksum `c` in the retransmit table, unless
it is dropped as a duplicate: it passes `crypto_decrypt`, its `len` is not 0, and it is an
ack bundle with `c` among its `len / 4` entries or a data packet with the ack flag whose
`ack` field is `c`. -/
def acks (env : Env) (c : Nat) (inp : UdpIn) : Prop :=
  valid env inp ∧ (plain env inp).len ≠ 0 ∧
    if (plain env inp).flag &&& 2 ≠ 0 then
      ∃ k, k < (plain env inp).len / 4 ∧ u32_at (plain env inp).payload k = c
    else (plain env inp).flag &&& 1 ≠ 0 ∧ (plain env inp).ack = c

instance (env : Env) (c : Nat) (inp : UdpIn) : Decidable (acks env c inp) := by
  unfold acks; infer_instance

/-- One input of the loop does not acknowledge the checksum `c`. -/
def no_ack (env : Env) (c : Nat) : Input → Prop
  | Input.udp i => ¬ acks env c i
  | _ => True

instance (env : Env) (c : Nat) (x : Input) : Decidable (no_ack env c x) := by
  cases x <;> unfold no_ack <;> infer_instance

/-- The checksum `c` is never acknowledged: no datagram among the inputs acknowledges it. -/
def never_acked (env : Env) (c : Nat) : List Input → Prop
  | [] => True
  | x :: xs => no_ack env c x ∧ never_acked env c xs

/-- The decision procedure for `never_acked`. -/
def never_acked_dec (env : Env) (c : Nat) : (l : List Input) → Decidable (never_acked env c l)
  | [] => isTrue trivial
  | x :: xs =>
    match never_acked_dec env c xs with
    | isTrue h =>
      if h1 : no_ack env c x then isTrue ⟨h1, h⟩ else isFalse (fun hh => h1 hh.1)
    | isFalse h => isFalse (fun hh => h hh.2)

instance (env : Env) (c : Nat) (l : List Input) : Decidable (never_acked env c l) :=
  never_acked_dec env c l

/-- One input of the loop in the state `e` does not make `tun_cb` build a packet of
checksum `c`. -/
def other_tun (env : Env) (c : Nat) (e : State × Pbuf) : Input → Prop
  | Input.tun i => 0 < i.n → (tun_build env e.1 e.2 i).chksum ≠ c
  | _ => True

instance (env : Env) (c : Nat) (e : State × Pbuf) (x : Input) :
    Decidable (other_tun env c e x) := by
  cases x <;> unfold other_tun <;> infer_instance

/-- Along the run of the inputs `l` from `e`, no call of `tun_cb` that reads a datagram
builds a packet of checksum `c`. -/
def not_rebuilt (env : Env) (conf : Conf) (c : Nat) : State × Pbuf → List Input → Prop
  | _, [] => True
  | e, x :: xs => other_tun env c e x ∧ not_rebuilt env conf c (step env conf e x) xs

/-- The decision procedure for `not_rebuilt`. -/
def not_rebuilt_dec (env : Env) (conf : Conf) (c : Nat) :
    (e : State × Pbuf) → (l : List Input) → Decidable (not_rebuilt env conf c e l)
  | _, [] => isTrue trivial
  | e, x :: xs =>
    match not_rebuilt_dec env conf c (step env conf e x) xs with
    | isTrue h =>
      if h1 : other_tun env c e x then isTrue ⟨h1, h⟩ else isFalse (fun hh => h1 hh.1)
    | isFalse h => isFalse (fun hh => h hh.2)

instance (env : Env) (conf : Conf) (c : Nat) (e : State × Pbuf) (l : List Input) :
    Decidable (not_rebuilt env conf c e l) :=
  not_rebuilt_dec env conf c e l

/-- A second datagram read from tun at time 0: one byte 3. -/
def tun_in2 : TunIn := { n := 1, data := fun _ => 3, now := 0 }

/-- A table whose slot 0 is in use, sent once, with the timestamp `LONG_MIN + 10`; the
other slots are free. -/
def overflow_table : Nat → Unacked :=
  fun i =>
    { send := if i < 1 then 1 else 0, stime := -2 ^ 63 + 10,
      pbuf := { zero_pbuf with chksum := 7 } }

/-- Inputs that leave two packets in the retransmit table: two reads from tun, a
retransmit tick at 300 ms and a data datagram. -/
def two_reads : List Input :=
  [Input.tun tun_in, Input.tun tun_in2, Input.retrans 300, Input.udp data_in]

/-! ## Theorems -/

/-! ### The dedup filter: `is_dup` over a sequence of calls (C2) -/

theorem is_dup_fst (hash : Nat → Nat → Nat) (x : Nat) :
    (is_dup hash x).1 = true ↔ x ∈ [hash (x % DUP_LEN) 0, hash (x % DUP_LEN) 1] := by
  simp only [is_dup, List.mem_cons, List.mem_singleton, List.not_mem_nil, or_false,
    Bool.or_eq_true, decide_eq_true_eq]
  constructor
  · rintro (h | h)
    · exact Or.inl h.symm
    · exact Or.inr h.symm
  · rintro (h | h)
    · exact Or.inl h.symm
    · exact Or.inr h.symm

theorem is_dup_snd_same (hash : Nat → Nat → Nat) (x : Nat) :
    (is_dup hash x).2 (x % DUP_LEN) 0 = x ∧
      (is_dup hash x).2 (x % DUP_LEN) 1 = hash (x % DUP_LEN) 0 := by
  simp [is_dup, set2, Function.update]

theorem is_dup_snd_other (hash : Nat → Nat → Nat) (x b : Nat) (hb : b ≠ x % DUP_LEN) :
    (is_dup hash x).2 b = hash b := by
  simp [is_dup, set2, Function.update, hb]

theorem take2_append (r : List Nat) (x a b : Nat) :
    (r ++ [x] ++ [a, b]).take 2 = (r ++ [x, a]).take 2 := by
  match r with
  | [] => simp
  | [y] => simp
  | y :: z :: r => simp

theorem dedup_table_slots (l : List Nat) (hash : Nat → Nat → Nat) (b : Nat) :
    [dedup_table hash l b 0, dedup_table hash l b 1] =
      (bucket_history l b ++ [hash b 0, hash b 1]).take 2 := by
  induction l generalizing hash with
  | nil => simp [dedup_table, bucket_history]
  | cons x xs ih =>
    have hstep : dedup_table hash (x :: xs) = dedup_table (is_dup hash x).2 xs := rfl
    rw [hstep, ih]
    by_cases hb : x % DUP_LEN = b
    · subst hb
      have h := is_dup_snd_same hash x
      rw [h.1, h.2]
      have : bucket_history (x :: xs) (x % DUP_LEN) = bucket_history xs (x % DUP_LEN) ++ [x] := by
        simp [bucket_history, List.filter_cons]
      rw [this, take2_append]
    · have hne : b ≠ x % DUP_LEN := fun h => hb h.symm
      rw [is_dup_snd_other hash x b hne]
      have : bucket_history (x :: xs) b = bucket_history xs b := by
        simp [bucket_history, List.filter_cons, hb]
      rw [this]

/-- C2, as the code has it: after any sequence `l` of calls from the initial table,
`is_dup(x)` returns true exactly when `x` is one of the two most recent values of bucket
`x mod 1021`, repetitions counted and the zero-initialised table standing for two earlier
zeros. -/
theorem is_dup_iff_recent2 (l : List Nat) (x : Nat) :
    (is_dup (dedup_table init_hash l) x).1 = true ↔ x ∈ recent2 l (x % DUP_LEN) := by
  rw [is_dup_fst, dedup_table_slots, recent2]
  rfl

/-- C2 fails as stated: after the calls `is_dup(1)`, `is_dup(1022)`, `is_dup(1022)`, all of
bucket 1, the two most recent distinct values of the bucket are 1022 and 1, yet `is_dup(1)`
returns false. -/
theorem is_dup_recent_distinct_counterexample :
    1 ∈ recent_distinct2 [1, 1022, 1022] (1 % DUP_LEN) ∧
      (is_dup (dedup_table init_hash [1, 1022, 1022]) 1).1 = false := by
  decide
/-! ### `acknowledge` on the retransmit table (C5) -/

theorem forLoop_acknowledge_body (c : Nat) (n : Nat) (t : Nat → Unacked) :
    forLoop n (acknowledge_body c) t =
      fun i => if i < n ∧ stores t c i then freed (t i) else t i := by
  induction n with
  | zero => funext i; simp [forLoop]
  | succ n ih =>
    rw [forLoop, ih]
    funext i
    unfold acknowledge_body
    simp only [lt_irrefl, false_and, if_false]
    by_cases hs : (t n).send ≠ 0 ∧ (t n).pbuf.chksum = c
    · rw [if_pos hs]
      by_cases hi : i = n
      · subst hi
        simp [stores, hs, freed]
      · have : (i < n + 1 ∧ stores t c i) ↔ (i < n ∧ stores t c i) := by
          constructor
          · rintro ⟨h1, h2⟩; exact ⟨by omega, h2⟩
          · rintro ⟨h1, h2⟩; exact ⟨by omega, h2⟩
        simp only [Function.update_noteq hi, this]
    · rw [if_neg hs]
      have : (i < n + 1 ∧ stores t c i) ↔ (i < n ∧ stores t c i) := by
        constructor
        · rintro ⟨h1, h2⟩
          refine ⟨?_, h2⟩
          rcases Nat.lt_succ_iff_lt_or_eq.mp h1 with h | h
          · exact h
          · subst h; exact absurd h2 hs
        · rintro ⟨h1, h2⟩; exact ⟨by omega, h2⟩
      simp only [this]

theorem acknowledge_apply (c : Nat) (t : Nat → Unacked) (i : Nat) :
    acknowledge c t i = if i < UNACKED_LEN ∧ stores t c i then freed (t i) else t i := by
  unfold acknowledge
  rw [forLoop_acknowledge_body]

theorem acknowledge_no_match (c : Nat) (t : Nat → Unacked)
    (h : ∀ i, i < UNACKED_LEN → ¬ stores t c i) : acknowledge c t = t := by
  funext i
  rw [acknowledge_apply]
  by_cases hi : i < UNACKED_LEN ∧ stores t c i
  · exact absurd hi.2 (h i hi.1)
  · rw [if_neg hi]

theorem acknowledge_not_stores (c : Nat) (t : Nat → Unacked) (i : Nat) (hi : i < UNACKED_LEN) :
    ¬ stores (acknowledge c t) c i := by
  unfold stores
  rw [acknowledge_apply]
  by_cases hs : stores t c i
  · simp [hi, hs, freed]
  · simp only [hs, and_false, if_false]
    exact hs

theorem acknowledge_idem (c : Nat) (t : Nat → Unacked) :
    acknowledge c (acknowledge c t) = acknowledge c t :=
  acknowledge_no_match c _ (fun i hi => acknowledge_not_stores c t i hi)

/-- C5, as the code has it: `acknowledge(c)` sets `send` to 0 in every in-use slot that
stores `c` and changes nothing else; it leaves the table as it is when no in-use slot
stores `c`; it changes exactly slot `i` when `i` is the only in-use slot that stores `c`;
and applied twice it gives the same table as applied once. -/
theorem acknowledge_frees_every_match (c : Nat) (t : Nat → Unacked) :
    (∀ i, acknowledge c t i = if i < UNACKED_LEN ∧ stores t c i then freed (t i) else t i) ∧
    ((∀ i, i < UNACKED_LEN → ¬ stores t c i) → acknowledge c t = t) ∧
    (∀ i, i < UNACKED_LEN → stores t c i →
      (∀ j, j < UNACKED_LEN → j ≠ i → ¬ stores t c j) →
      acknowledge c t = Function.update t i (freed (t i))) ∧
    acknowledge c (acknowledge c t) = acknowledge c t := by
  refine ⟨acknowledge_apply c t, acknowledge_no_match c t, ?_, acknowledge_idem c t⟩
  intro i hi hs honly
  funext j
  rw [acknowledge_apply]
  by_cases hj : j = i
  · subst hj
    simp [hi, hs]
  · rw [Function.update_noteq hj]
    by_cases hjs : j < UNACKED_LEN ∧ stores t c j
    · exact absurd hjs.2 (honly j hjs.1 hj)
    · rw [if_neg hjs]

/-- The amended C5 at a table whose slot 0 alone stores checksum 7: `acknowledge(7)` frees
slot 0 and nothing else. -/
theorem acknowledge_frees_every_match_witness :
    acknowledge 7 single_table = Function.update single_table 0 (freed (single_table 0)) :=
  (acknowledge_frees_every_match 7 single_table).2.2.1 0 (by decide)
    (by simp [stores, single_table])
    (by
      intro j _ hj
      have : ¬ j < 1 := by omega
      simp [stores, single_table, this])

/-! ### The padding length of `obfuscate` (C8) -/

theorem obfuscate_padding (conf : Conf) (draw : Nat → Nat) (p : Pbuf) :
    (obfuscate conf draw p).1.padding =
      if (p.len : Int) < conf.mtu then pad_len conf.mtu p.len (draw 8) else 0 := by
  unfold obfuscate
  simp only
  split_ifs <;> rfl

theorem pad_len_range (mtu : Int) (len r : Nat) (h : (len : Int) < mtu) :
    pad_range (mtu - len) (pad_len mtu len r) := by
  unfold pad_range pad_len
  simp only
  have h1 : ((r % 251 : Nat) : Int) < 251 := by exact_mod_cast Nat.mod_lt r (by norm_num)
  have h2 : ((r % 151 : Nat) : Int) < 151 := by exact_mod_cast Nat.mod_lt r (by norm_num)
  have h3 : ((r % 199 : Nat) : Int) < 199 := by exact_mod_cast Nat.mod_lt r (by norm_num)
  have h4 : (0 : Int) ≤ ((r % 251 : Nat) : Int) := Int.natCast_nonneg _
  have h5 : (0 : Int) ≤ ((r % 151 : Nat) : Int) := Int.natCast_nonneg _
  have h6 : (0 : Int) ≤ ((r % 199 : Nat) : Int) := Int.natCast_nonneg _
  split_ifs <;> omega

theorem pad_len_onto (mtu : Int) (len : Nat) (v : Int) (h : (len : Int) < mtu)
    (hv : pad_range (mtu - len) v) :
    ∃ r : Nat, r < 32768 ∧ pad_len mtu len r = v := by
  unfold pad_range at hv
  unfold pad_len
  simp only
  split_ifs at hv with c1 c2 c3 c4
  · refine ⟨v.toNat, by omega, ?_⟩
    rw [if_pos c1]
    have : v.toNat % 251 = v.toNat := Nat.mod_eq_of_lt (by omega)
    rw [this]; omega
  · refine ⟨(v - 99).toNat, by omega, ?_⟩
    rw [if_neg c1, if_pos c2]
    have : (v - 99).toNat % 251 = (v - 99).toNat := Nat.mod_eq_of_lt (by omega)
    rw [this]; omega
  · refine ⟨(v - 49).toNat, by omega, ?_⟩
    rw [if_neg c1, if_neg c2, if_pos c3]
    have : (v - 49).toNat % 151 = (v - 49).toNat := Nat.mod_eq_of_lt (by omega)
    rw [this]; omega
  · refine ⟨v.toNat, by omega, ?_⟩
    rw [if_neg c1, if_neg c2, if_neg c3]
    have hm := le_min_iff.mp hv.2
    have : v.toNat % 199 = v.toNat := Nat.mod_eq_of_lt (by omega)
    rw [this]
    split_ifs <;> omega
  · omega

/-- C8: for every packet, MTU and sequence of results of `rand()`, the padding length set
by `obfuscate` lies in the range the spec gives for the headroom `max = MTU - len`
(0..250 above 1000, 99..349 above 500, 49..199 above 200, 0..min(198, max) above 0, and 0
when `len ≥ MTU`), and every value of that range is the padding for some results of
`rand()`, all of them below 32768. -/
theorem obfuscate_padding_range (conf : Conf) (p : Pbuf) :
    (∀ draw : Nat → Nat, pad_range (conf.mtu - p.len) (obfuscate conf draw p).1.padding) ∧
    (∀ v : Int, pad_range (conf.mtu - p.len) v →
      ∃ draw : Nat → Nat, (∀ k, draw k < 32768) ∧ (obfuscate conf draw p).1.padding = v) := by
  constructor
  · intro draw
    rw [obfuscate_padding]
    by_cases h : (p.len : Int) < conf.mtu
    · rw [if_pos h]; exact pad_len_range _ _ _ h
    · rw [if_neg h]
      unfold pad_range
      split_ifs <;> omega
  · intro v hv
    by_cases h : (p.len : Int) < conf.mtu
    · obtain ⟨r, hr, hp⟩ := pad_len_onto conf.mtu p.len v h hv
      refine ⟨fun _ => r, fun _ => hr, ?_⟩
      rw [obfuscate_padding, if_pos h]
      exact hp
    · refine ⟨fun _ => 0, fun _ => by norm_num, ?_⟩
      rw [obfuscate_padding, if_neg h]
      unfold pad_range at hv
      split_ifs at hv <;> omega

/-- C8 at a packet of 100 bytes with MTU 1400: the padding 250 is in the range and is
produced by some results of `rand()`. -/
theorem obfuscate_padding_range_witness :
    ∃ draw : Nat → Nat, (∀ k, draw k < 32768) ∧
      (obfuscate { mode := Mode.client, mtu := 1400, duplicate := false } draw
        { zero_pbuf with len := 100 }).1.padding = 250 :=
  (obfuscate_padding_range { mode := Mode.client, mtu := 1400, duplicate := false }
    { zero_pbuf with len := 100 }).2 250 (by simp [pad_range, zero_pbuf])
/-! ### `obfuscate`, `sendpkt` and the trace of effects -/

theorem forLoop_update_below (k : Nat) (base : Nat) (v : Nat → Nat) (pl : Nat → Nat) (i : Nat)
    (hi : i < base) :
    forLoop k (fun j pl => Function.update pl (base + j) (v j)) pl i = pl i := by
  induction k with
  | zero => rfl
  | succ k ih =>
    rw [forLoop]
    have : i ≠ base + k := by omega
    rw [Function.update_noteq this, ih]

theorem obfuscate_same (conf : Conf) (draw : Nat → Nat) (p : Pbuf) :
    same_pkt (obfuscate conf draw p).1 p := by
  unfold obfuscate same_pkt
  simp only
  split_ifs
  · refine ⟨rfl, rfl, rfl, rfl, ?_⟩
    intro i hi
    exact forLoop_update_below _ p.len (fun j => draw (9 + j) % 256) p.payload i hi
  · exact ⟨rfl, rfl, rfl, rfl, fun _ _ => rfl⟩

theorem wire_same (env : Env) (conf : Conf) (s : State) (p : Pbuf) :
    same_pkt (wire env conf s p) p :=
  obfuscate_same conf _ p

theorem sendpkt_known (env : Env) (conf : Conf) (s : State) (p : Pbuf)
    (h : s.remote.addrlen ≠ 0) :
    (sendpkt env conf s p).1 =
      { s with
        pos := s.pos + (obfuscate conf (fun k => env.rand s.seed (s.pos + k)) p).2
        out := s.out ++ [Event.sendto (wire env conf s p)
          ((PAYLOAD_OFFSET : Int) + ((wire env conf s p).len : Int) + (wire env conf s p).padding)
          s.remote.addr s.remote.addrlen] } := by
  unfold sendpkt wire
  rw [if_pos h]

theorem sendpkt_unknown (env : Env) (conf : Conf) (s : State) (p : Pbuf)
    (h : s.remote.addrlen = 0) : sendpkt env conf s p = (s, p) := by
  unfold sendpkt
  simp [h]

@[simp] theorem sendpkt_remote (env : Env) (conf : Conf) (s : State) (p : Pbuf) :
    (sendpkt env conf s p).1.remote = s.remote := by
  unfold sendpkt; split_ifs <;> rfl

@[simp] theorem sendpkt_ack (env : Env) (conf : Conf) (s : State) (p : Pbuf) :
    (sendpkt env conf s p).1.ack = s.ack := by
  unfold sendpkt; split_ifs <;> rfl

@[simp] theorem sendpkt_unacked (env : Env) (conf : Conf) (s : State) (p : Pbuf) :
    (sendpkt env conf s p).1.unacked = s.unacked := by
  unfold sendpkt; split_ifs <;> rfl

@[simp] theorem sendpkt_hash (env : Env) (conf : Conf) (s : State) (p : Pbuf) :
    (sendpkt env conf s p).1.hash = s.hash := by
  unfold sendpkt; split_ifs <;> rfl

/-- The events one call of `sendpkt` appends: one `sendto` when the peer is known. -/
theorem sendpkt_out (env : Env) (conf : Conf) (s : State) (p : Pbuf) :
    (sendpkt env conf s p).1.out = s.out ++
      if s.remote.addrlen ≠ 0 then
        [Event.sendto (wire env conf s p)
          ((PAYLOAD_OFFSET : Int) + ((wire env conf s p).len : Int) + (wire env conf s p).padding)
          s.remote.addr s.remote.addrlen]
      else [] := by
  by_cases h : s.remote.addrlen ≠ 0
  · rw [sendpkt_known env conf s p h, if_pos h]
  · rw [if_neg h]
    rw [sendpkt_unknown env conf s p (not_not.mp h)]
    simp

@[simp] theorem copypkt_same (d p : Pbuf) : same_pkt (copypkt d p) p := by
  refine ⟨rfl, rfl, rfl, rfl, ?_⟩
  intro i hi
  simp [copypkt, memcpy, hi]

theorem same_pkt_trans {a b c : Pbuf} (h1 : same_pkt a b) (h2 : same_pkt b c) : same_pkt a c := by
  obtain ⟨a1, a2, a3, a4, a5⟩ := h1
  obtain ⟨b1, b2, b3, b4, b5⟩ := h2
  refine ⟨a1.trans b1, a2.trans b2, a3.trans b3, a4.trans b4, ?_⟩
  intro i hi
  rw [a5 i (by omega), b5 i hi]

@[simp] theorem sent_append (a b : List Event) : sent (a ++ b) = sent a ++ sent b := by
  simp [sent, List.filterMap_append]

@[simp] theorem sent_count_append (c : Nat) (a b : List Event) :
    sent_count c (a ++ b) = sent_count c a + sent_count c b := by
  simp [sent_count]

@[simp] theorem tun_write_count_append (a b : List Event) :
    tun_write_count (a ++ b) = tun_write_count a + tun_write_count b := by
  simp [tun_write_count]
/-! ### `heartbeat` and the datagrams with `len = 0` (C10) -/

@[simp] theorem heartbeat_remote (env : Env) (conf : Conf) (now : Int) (s : State) :
    (heartbeat env conf now s).remote = s.remote := by
  simp [heartbeat]

@[simp] theorem heartbeat_ack (env : Env) (conf : Conf) (now : Int) (s : State) :
    (heartbeat env conf now s).ack = s.ack := by
  simp [heartbeat]

@[simp] theorem heartbeat_unacked (env : Env) (conf : Conf) (now : Int) (s : State) :
    (heartbeat env conf now s).unacked = s.unacked := by
  simp [heartbeat]

@[simp] theorem heartbeat_hash (env : Env) (conf : Conf) (now : Int) (s : State) :
    (heartbeat env conf now s).hash = s.hash := by
  simp [heartbeat]

/-- The events of `heartbeat`: one `sendto` of a packet with `len = 0` to the current peer
when it is known, nothing otherwise. -/
theorem heartbeat_out (env : Env) (conf : Conf) (now : Int) (s : State) :
    (s.remote.addrlen ≠ 0 →
      ∃ q n, (heartbeat env conf now s).out =
        s.out ++ [Event.sendto q n s.remote.addr s.remote.addrlen] ∧ q.len = 0) ∧
    (s.remote.addrlen = 0 → (heartbeat env conf now s).out = s.out) := by
  constructor
  · intro h
    unfold heartbeat
    simp only
    rw [sendpkt_out]
    simp only [h, ne_eq, not_false_eq_true, if_true]
    refine ⟨_, _, rfl, ?_⟩
    exact (wire_same env conf _ _).2.2.2.1
  · intro h
    unfold heartbeat
    simp only
    rw [sendpkt_out]
    simp [h]

theorem udp_cb_len_zero (env : Env) (conf : Conf) (s : State) (inp : UdpIn)
    (hmode : conf.mode = Mode.server)
    (hn : (PAYLOAD_OFFSET : Int) ≤ inp.n)
    (hdec : (env.crypto_decrypt inp.raw inp.n).1 = 0)
    (hlen : (env.crypto_decrypt inp.raw inp.n).2.len = 0) :
    (udp_cb env conf s inp).1 = heartbeat env conf inp.now s := by
  unfold udp_cb
  simp only
  rw [if_neg (not_lt.mpr hn), if_neg (not_not.mpr hdec), if_pos hlen, if_pos hmode]

/-- C10, as the code has it: on the server a datagram that decrypts and verifies with
`len = 0` makes `udp_cb` call `heartbeat` once: one packet with `len = 0` goes to the
current peer endpoint when it is known, and nothing is sent when none is known yet; the
ack queue, the dedup table, the retransmit table and the peer endpoint are unchanged. -/
theorem udp_cb_heartbeat (env : Env) (conf : Conf) (s : State) (inp : UdpIn)
    (hmode : conf.mode = Mode.server)
    (hn : (PAYLOAD_OFFSET : Int) ≤ inp.n)
    (hdec : (env.crypto_decrypt inp.raw inp.n).1 = 0)
    (hlen : (env.crypto_decrypt inp.raw inp.n).2.len = 0) :
    (udp_cb env conf s inp).1.ack = s.ack ∧
    (udp_cb env conf s inp).1.hash = s.hash ∧
    (udp_cb env conf s inp).1.unacked = s.unacked ∧
    (udp_cb env conf s inp).1.remote = s.remote ∧
    (s.remote.addrlen ≠ 0 →
      ∃ q n, (udp_cb env conf s inp).1.out =
        s.out ++ [Event.sendto q n s.remote.addr s.remote.addrlen] ∧ q.len = 0) ∧
    (s.remote.addrlen = 0 → (udp_cb env conf s inp).1.out = s.out) := by
  rw [udp_cb_len_zero env conf s inp hmode hn hdec hlen]
  refine ⟨heartbeat_ack _ _ _ _, heartbeat_hash _ _ _ _, heartbeat_unacked _ _ _ _,
    heartbeat_remote _ _ _ _, ?_, ?_⟩
  · intro hp
    exact (heartbeat_out env conf inp.now s).1 hp
  · intro hp
    exact (heartbeat_out env conf inp.now s).2 hp

/-- The amended C10 on a server that knows the peer `addr_a`: the heartbeat datagram is
answered by one packet with `len = 0`. -/
theorem udp_cb_heartbeat_witness :
    ∃ q n, (udp_cb env0 server_conf
        { init_state server_conf addr_a with remote := addr_a } heartbeat_in).1.out =
      [] ++ [Event.sendto q n addr_a.addr addr_a.addrlen] ∧ q.len = 0 :=
  (udp_cb_heartbeat env0 server_conf { init_state server_conf addr_a with remote := addr_a }
    heartbeat_in rfl (by decide) (by decide) (by decide)).2.2.2.2.1 (by decide)

/-- C10 fails as stated: when the heartbeat from `addr_a` is the first valid packet the
server receives, it passes decrypt and verify with `len = 0`, and `udp_cb` sends
nothing. -/
theorem udp_cb_first_heartbeat_counterexample :
    (env0.crypto_decrypt heartbeat_in.raw heartbeat_in.n).1 = 0 ∧
    (env0.crypto_decrypt heartbeat_in.raw heartbeat_in.n).2.len = 0 ∧
    (udp_cb env0 server_conf (init_state server_conf addr_a) heartbeat_in).1.out = [] := by
  refine ⟨by decide, by decide, ?_⟩
  rw [udp_cb_len_zero env0 server_conf (init_state server_conf addr_a) heartbeat_in rfl
    (by decide) (by decide) (by decide)]
  exact (heartbeat_out env0 server_conf heartbeat_in.now (init_state server_conf addr_a)).2
    (by decide)
/-! ### `flushack`, the paths of `udp_cb` and the peer endpoint (C1) -/

@[simp] theorem flushack_remote (env : Env) (conf : Conf) (s : State) :
    (flushack env conf s).remote = s.remote := by
  unfold flushack; split_ifs <;> simp

@[simp] theorem flushack_unacked (env : Env) (conf : Conf) (s : State) :
    (flushack env conf s).unacked = s.unacked := by
  unfold flushack; split_ifs <;> simp

@[simp] theorem flushack_hash (env : Env) (conf : Conf) (s : State) :
    (flushack env conf s).hash = s.hash := by
  unfold flushack; split_ifs <;> simp

@[simp] theorem flushack_count (env : Env) (conf : Conf) (s : State) :
    (flushack env conf s).ack.count = 0 := by
  unfold flushack; split_ifs <;> simp

@[simp] theorem flushack_ack_ack (env : Env) (conf : Conf) (s : State) :
    (flushack env conf s).ack.ack = s.ack.ack := by
  unfold flushack; split_ifs <;> simp

/-- The events of `flushack` on a non-empty queue with a known peer: two `sendto`, each of
a packet with the fields and payload of the bundle. -/
theorem flushack_out_known (env : Env) (conf : Conf) (s : State)
    (hc : s.ack.count ≠ 0) (hp : s.remote.addrlen ≠ 0) :
    ∃ q1 n1 q2 n2, (flushack env conf s).out =
        s.out ++ [Event.sendto q1 n1 s.remote.addr s.remote.addrlen,
          Event.sendto q2 n2 s.remote.addr s.remote.addrlen] ∧
      same_pkt q1 (ack_bundle env s) ∧ same_pkt q2 (ack_bundle env s) := by
  unfold flushack
  rw [if_pos hc]
  simp only
  rw [sendpkt_out, sendpkt_out]
  simp only [sendpkt_remote, hp, ne_eq, not_false_eq_true, if_true, List.append_assoc,
    List.singleton_append]
  refine ⟨_, _, _, _, rfl, ?_, ?_⟩
  · exact same_pkt_trans (wire_same env conf _ _) (copypkt_same _ _)
  · exact wire_same env conf _ _

theorem flushack_out_empty (env : Env) (conf : Conf) (s : State)
    (hc : s.ack.count = 0) : (flushack env conf s).out = s.out := by
  unfold flushack
  simp [hc]

theorem memcmp_eq_iff (a b : Nat → Nat) (n : Nat) :
    memcmp_eq a b n = true ↔ ∀ i, i < n → a i = b i := by
  simp [memcmp_eq, List.all_eq_true]

theorem update_remote_server (conf : Conf) (s : State) (addr : Nat → Nat) (addrlen : Nat)
    (hmode : conf.mode = Mode.server) :
    peer_is (update_remote conf s addr addrlen).remote addr addrlen := by
  unfold update_remote
  rw [if_pos hmode]
  split_ifs with h
  · refine ⟨rfl, ?_⟩
    intro i hi
    simp [memcpy, hi]
  · have h1 : s.remote.addrlen = addrlen := by
      by_contra hne; exact h (Or.inl hne)
    have h2 : memcmp_eq s.remote.addr addr addrlen = true := by
      by_contra hne
      exact h (Or.inr (by simpa using hne))
    exact ⟨h1, (memcmp_eq_iff _ _ _).mp h2⟩

theorem update_remote_rest (conf : Conf) (s : State) (addr : Nat → Nat) (addrlen : Nat) :
    (update_remote conf s addr addrlen).ack = s.ack ∧
    (update_remote conf s addr addrlen).unacked = s.unacked ∧
    (update_remote conf s addr addrlen).hash = s.hash ∧
    (update_remote conf s addr addrlen).out = s.out := by
  unfold update_remote
  split_ifs <;> exact ⟨rfl, rfl, rfl, rfl⟩
theorem udp_cb_dup (env : Env) (conf : Conf) (s : State) (inp : UdpIn)
    (hv : valid env inp) (hlen : (plain env inp).len ≠ 0)
    (hdup : (is_dup s.hash (plain env inp).chksum).1 = true) :
    (udp_cb env conf s inp).1 = { s with hash := (is_dup s.hash (plain env inp).chksum).2 } := by
  unfold plain at hlen hdup
  unfold udp_cb
  simp only
  rw [if_neg (not_lt.mpr hv.1), if_neg (not_not.mpr hv.2), if_neg hlen, if_pos hdup]
  rfl

theorem udp_cb_bundle (env : Env) (conf : Conf) (s : State) (inp : UdpIn)
    (hv : valid env inp) (hlen : (plain env inp).len ≠ 0)
    (hdup : (is_dup s.hash (plain env inp).chksum).1 = false)
    (hflag : (plain env inp).flag &&& 2 ≠ 0) :
    (udp_cb env conf s inp).1 =
      { s with
        hash := (is_dup s.hash (plain env inp).chksum).2
        unacked := forLoop ((plain env inp).len / 4)
          (fun i t => acknowledge (u32_at (plain env inp).payload i) t) s.unacked } := by
  unfold plain at hlen hdup hflag
  unfold udp_cb
  simp only
  rw [if_neg (not_lt.mpr hv.1), if_neg (not_not.mpr hv.2), if_neg hlen,
    if_neg (by simp [hdup]), if_pos hflag]
  rfl

theorem udp_cb_data (env : Env) (conf : Conf) (s : State) (inp : UdpIn)
    (hv : valid env inp) (hlen : (plain env inp).len ≠ 0)
    (hdup : (is_dup s.hash (plain env inp).chksum).1 = false)
    (hflag : (plain env inp).flag &&& 2 = 0) :
    (udp_cb env conf s inp).1 =
      update_remote conf (accepted env conf s (plain env inp)) inp.addr inp.addrlen := by
  unfold plain at hlen hdup hflag
  unfold udp_cb
  simp only
  rw [if_neg (not_lt.mpr hv.1), if_neg (not_not.mpr hv.2), if_neg hlen,
    if_neg (by simp [hdup]), if_neg (not_not.mpr hflag)]
  rfl

@[simp] theorem accepted_remote (env : Env) (conf : Conf) (s : State) (p : Pbuf) :
    (accepted env conf s p).remote = s.remote := by
  unfold accepted enqueue_write piggyback
  simp only
  split_ifs <;> simp

/-- C1, as the code has it: on the server, a datagram that passes decrypt and verify and
is a fresh data packet (`len ≠ 0`, not a duplicate, no ack-bundle flag) leaves the peer
endpoint equal to its source address, and a heartbeat, a duplicate or an ack bundle leaves
the peer endpoint as it was. -/
theorem udp_cb_peer_endpoint (env : Env) (conf : Conf) (s : State) (inp : UdpIn)
    (hmode : conf.mode = Mode.server) (hv : valid env inp) :
    ((plain env inp).len ≠ 0 → (is_dup s.hash (plain env inp).chksum).1 = false →
      (plain env inp).flag &&& 2 = 0 →
      peer_is (udp_cb env conf s inp).1.remote inp.addr inp.addrlen) ∧
    ((plain env inp).len = 0 ∨ (is_dup s.hash (plain env inp).chksum).1 = true ∨
      (plain env inp).flag &&& 2 ≠ 0 →
      (udp_cb env conf s inp).1.remote = s.remote) := by
  constructor
  · intro hlen hdup hflag
    rw [udp_cb_data env conf s inp hv hlen hdup hflag]
    exact update_remote_server conf _ _ _ hmode
  · intro h
    by_cases hlen : (plain env inp).len = 0
    · rw [udp_cb_len_zero env conf s inp hmode hv.1 hv.2 hlen]
      exact heartbeat_remote _ _ _ _
    · by_cases hdup : (is_dup s.hash (plain env inp).chksum).1 = true
      · rw [udp_cb_dup env conf s inp hv hlen hdup]
      · have hdup2 : (is_dup s.hash (plain env inp).chksum).1 = false := by simpa using hdup
        have hflag : (plain env inp).flag &&& 2 ≠ 0 := by
          rcases h with h | h | h
          · exact absurd h hlen
          · exact absurd h hdup
          · exact h
        rw [udp_cb_bundle env conf s inp hv hlen hdup2 hflag]

/-- The amended C1 on a fresh server: after the data datagram from `addr_a` the peer
endpoint is `addr_a`. -/
theorem udp_cb_peer_endpoint_witness :
    peer_is (udp_cb env0 server_conf (init_state server_conf addr_a) data_in).1.remote
      addr_a.addr addr_a.addrlen :=
  (udp_cb_peer_endpoint env0 server_conf (init_state server_conf addr_a) data_in rfl
    (by decide)).1 (by decide) (by decide) (by decide)

/-- C1 fails as stated: the heartbeat from `addr_a` passes decrypt and verify on a fresh
server, and after `udp_cb` returns the peer endpoint still has length 0, not 16. -/
theorem udp_cb_peer_heartbeat_counterexample :
    valid env0 heartbeat_in ∧
    ¬ peer_is (udp_cb env0 server_conf (init_state server_conf addr_a) heartbeat_in).1.remote
      heartbeat_in.addr heartbeat_in.addrlen := by
  refine ⟨by decide, ?_⟩
  rw [udp_cb_len_zero env0 server_conf (init_state server_conf addr_a) heartbeat_in rfl
    (by decide) (by decide) (by decide)]
  intro h
  have h1 := h.1
  rw [heartbeat_remote] at h1
  exact absurd h1 (by decide)
/-! ### Three copies of one data packet (C9) -/

theorem is_dup_again (hash : Nat → Nat → Nat) (c : Nat) :
    (is_dup (is_dup hash c).2 c).1 = true := by
  rw [is_dup_fst, (is_dup_snd_same hash c).1]
  simp

theorem not_mem_recent2 (l : List Nat) (c : Nat) (hnew : c ∉ l) (hnz : c ≠ 0) :
    c ∉ recent2 l (c % DUP_LEN) := by
  intro h
  have h1 := List.mem_of_mem_take h
  rw [List.mem_append] at h1
  rcases h1 with h1 | h1
  · unfold bucket_history at h1
    rw [List.mem_reverse] at h1
    exact hnew (List.mem_of_mem_filter h1)
  · simp at h1
    exact hnz h1

theorem is_dup_unseen (l : List Nat) (c : Nat) (hnew : c ∉ l) (hnz : c ≠ 0) :
    (is_dup (dedup_table init_hash l) c).1 = false := by
  have h : ¬ (is_dup (dedup_table init_hash l) c).1 = true := by
    rw [is_dup_fst, dedup_table_slots]
    exact not_mem_recent2 l c hnew hnz
  simpa using h

/-- The events of `flushack` are `sendto` events. -/
theorem flushack_out_sends (env : Env) (conf : Conf) (s : State) :
    ∃ es, (flushack env conf s).out = s.out ++ es ∧ tun_write_count es = 0 := by
  unfold flushack
  split_ifs
  · simp only
    rw [sendpkt_out, sendpkt_out, List.append_assoc]
    refine ⟨_, rfl, ?_⟩
    split_ifs <;> simp [tun_write_count]
  · exact ⟨[], by simp, rfl⟩

theorem piggyback_frame (s : State) (p : Pbuf) :
    (piggyback s p).ack = s.ack ∧ (piggyback s p).out = s.out ∧
    (piggyback s p).hash = s.hash ∧ (piggyback s p).remote = s.remote := by
  unfold piggyback
  split_ifs <;> exact ⟨rfl, rfl, rfl, rfl⟩

theorem enqueue_write_out (env : Env) (conf : Conf) (s : State) (p : Pbuf) :
    ∃ es, (enqueue_write env conf s p).out = s.out ++ es ++ [Event.tun_write p.payload p.len] ∧
      tun_write_count es = 0 := by
  unfold enqueue_write
  simp only
  split_ifs
  · obtain ⟨es, h1, h2⟩ := flushack_out_sends env conf s
    exact ⟨es, by rw [h1], h2⟩
  · exact ⟨[], by simp, rfl⟩

theorem enqueue_write_ack (env : Env) (conf : Conf) (s : State) (p : Pbuf) :
    (enqueue_write env conf s p).ack = enqueued s.ack p.chksum := by
  unfold enqueue_write enqueued
  simp only
  split_ifs <;> simp

theorem enqueue_write_hash (env : Env) (conf : Conf) (s : State) (p : Pbuf) :
    (enqueue_write env conf s p).hash = s.hash := by
  unfold enqueue_write
  simp only
  split_ifs <;> simp

theorem accepted_out (env : Env) (conf : Conf) (s : State) (p : Pbuf) :
    ∃ es, (accepted env conf s p).out = s.out ++ es ++ [Event.tun_write p.payload p.len] ∧
      tun_write_count es = 0 := by
  unfold accepted
  obtain ⟨es, h1, h2⟩ := enqueue_write_out env conf
    (piggyback { s with hash := (is_dup s.hash p.chksum).2 } p) p
  rw [(piggyback_frame _ p).2.1] at h1
  exact ⟨es, h1, h2⟩

theorem accepted_ack (env : Env) (conf : Conf) (s : State) (p : Pbuf) :
    (accepted env conf s p).ack = enqueued s.ack p.chksum := by
  unfold accepted
  rw [enqueue_write_ack, (piggyback_frame _ p).1]

theorem accepted_hash (env : Env) (conf : Conf) (s : State) (p : Pbuf) :
    (accepted env conf s p).hash = (is_dup s.hash p.chksum).2 := by
  unfold accepted
  rw [enqueue_write_hash, (piggyback_frame _ p).2.2.1]
/-- C9, as the code has it: when a valid data packet (`len ≠ 0`, no ack-bundle flag)
whose checksum is not 0 and is not among the checksums `l` passed to `is_dup` so far is
processed three times in succession by `udp_cb`, there is exactly one `tun_write`, of the
inner payload, and the ack queue is the old one with the checksum enqueued once. -/
theorem udp_cb_three_copies (env : Env) (conf : Conf) (s : State) (l : List Nat)
    (inp1 inp2 inp3 : UdpIn)
    (hhash : s.hash = dedup_table init_hash l)
    (hnew : (plain env inp1).chksum ∉ l) (hnz : (plain env inp1).chksum ≠ 0)
    (hv1 : valid env inp1) (hv2 : valid env inp2) (hv3 : valid env inp3)
    (hlen : (plain env inp1).len ≠ 0) (hflag : (plain env inp1).flag &&& 2 = 0)
    (h2 : same_pkt (plain env inp2) (plain env inp1))
    (h3 : same_pkt (plain env inp3) (plain env inp1)) :
    (∃ es, (udp_cb env conf (udp_cb env conf (udp_cb env conf s inp1).1 inp2).1 inp3).1.out =
        s.out ++ es ++ [Event.tun_write (plain env inp1).payload (plain env inp1).len] ∧
      tun_write_count es = 0) ∧
    (udp_cb env conf (udp_cb env conf (udp_cb env conf s inp1).1 inp2).1 inp3).1.ack =
      enqueued s.ack (plain env inp1).chksum := by
  have hfresh : (is_dup s.hash (plain env inp1).chksum).1 = false := by
    rw [hhash]; exact is_dup_unseen l _ hnew hnz
  have e1 := udp_cb_data env conf s inp1 hv1 hlen hfresh hflag
  obtain ⟨ha, _, hh, ho⟩ := update_remote_rest conf
    (accepted env conf s (plain env inp1)) inp1.addr inp1.addrlen
  rw [← e1] at ha hh ho
  rw [accepted_hash] at hh
  have hlen2 : (plain env inp2).len ≠ 0 := by rw [h2.2.2.2.1]; exact hlen
  have hlen3 : (plain env inp3).len ≠ 0 := by rw [h3.2.2.2.1]; exact hlen
  have hd2 : (is_dup (udp_cb env conf s inp1).1.hash (plain env inp2).chksum).1 = true := by
    rw [hh, h2.1]; exact is_dup_again _ _
  have e2 := udp_cb_dup env conf (udp_cb env conf s inp1).1 inp2 hv2 hlen2 hd2
  have hd3 : (is_dup (udp_cb env conf (udp_cb env conf s inp1).1 inp2).1.hash
      (plain env inp3).chksum).1 = true := by
    rw [e2, h3.1, h2.1]; exact is_dup_again _ _
  have e3 := udp_cb_dup env conf (udp_cb env conf (udp_cb env conf s inp1).1 inp2).1 inp3
    hv3 hlen3 hd3
  rw [e3, e2]
  refine ⟨?_, ?_⟩
  · show ∃ es, (udp_cb env conf s inp1).1.out = _ ∧ _
    rw [ho]
    exact accepted_out env conf s (plain env inp1)
  · show (udp_cb env conf s inp1).1.ack = _
    rw [ha]
    exact accepted_ack env conf s (plain env inp1)

/-- C9 on a fresh server: three copies of the data datagram with checksum 5 give one
`tun_write`, and the ack queue holds the checksum once. -/
theorem udp_cb_three_copies_witness :
    (udp_cb env0 server_conf (udp_cb env0 server_conf
      (udp_cb env0 server_conf (init_state server_conf addr_a) data_in).1 data_in).1
        data_in).1.ack = enqueued (init_state server_conf addr_a).ack 5 :=
  (udp_cb_three_copies env0 server_conf (init_state server_conf addr_a) [] data_in data_in
    data_in rfl (by decide) (by decide) (by decide) (by decide) (by decide) (by decide)
    (by decide) ⟨rfl, rfl, rfl, rfl, fun _ _ => rfl⟩ ⟨rfl, rfl, rfl, rfl, fun _ _ => rfl⟩).2

/-- C9 fails as stated: on a fresh server, whose dedup filter has seen no checksum, three
copies of a valid data packet whose keyed hash is 0 give no `tun_write` at all. -/
theorem udp_cb_zero_hash_counterexample :
    valid env0 zero_hash_in ∧ (plain env0 zero_hash_in).len ≠ 0 ∧
    (plain env0 zero_hash_in).flag &&& 2 = 0 ∧
    (init_state server_conf addr_a).hash = dedup_table init_hash [] ∧
    tun_write_count (udp_cb env0 server_conf (udp_cb env0 server_conf
      (udp_cb env0 server_conf (init_state server_conf addr_a) zero_hash_in).1
        zero_hash_in).1 zero_hash_in).1.out = 0 := by
  refine ⟨by decide, by decide, by decide, rfl, ?_⟩
  have e1 := udp_cb_dup env0 server_conf (init_state server_conf addr_a) zero_hash_in
    (by decide) (by decide) (by decide)
  have e2 := udp_cb_dup env0 server_conf
    (udp_cb env0 server_conf (init_state server_conf addr_a) zero_hash_in).1 zero_hash_in
    (by decide) (by decide) (by rw [e1]; exact is_dup_again _ _)
  have e3 := udp_cb_dup env0 server_conf
    (udp_cb env0 server_conf (udp_cb env0 server_conf (init_state server_conf addr_a)
      zero_hash_in).1 zero_hash_in).1 zero_hash_in
    (by decide) (by decide) (by rw [e2]; exact is_dup_again _ _)
  rw [e3, e2, e1]
  rfl
/-! ### A data packet on a full ack queue (C7) -/

theorem u32_at_bytes (a : Nat → Nat) (m : Nat → Nat) (i : Nat)
    (h : ∀ j, j < 4 → m (4 * i + j) = bytes_of_u32s a (4 * i + j)) :
    u32_at m i = a i % 2 ^ 32 := by
  unfold u32_at
  have h0 := h 0 (by norm_num)
  have h1 := h 1 (by norm_num)
  have h2 := h 2 (by norm_num)
  have h3 := h 3 (by norm_num)
  unfold bytes_of_u32s at h0 h1 h2 h3
  have d0 : (4 * i + 0) / 4 = i := by omega
  have d1 : (4 * i + 1) / 4 = i := by omega
  have d2 : (4 * i + 2) / 4 = i := by omega
  have d3 : (4 * i + 3) / 4 = i := by omega
  have r0 : (4 * i + 0) % 4 = 0 := by omega
  have r1 : (4 * i + 1) % 4 = 1 := by omega
  have r2 : (4 * i + 2) % 4 = 2 := by omega
  have r3 : (4 * i + 3) % 4 = 3 := by omega
  rw [d0, r0] at h0
  rw [d1, r1] at h1
  rw [d2, r2] at h2
  rw [d3, r3] at h3
  norm_num at h0 h1 h2 h3
  rw [h0, h1, h2, h3]
  norm_num
  omega

theorem ack_bundle_is_bundle (env : Env) (s : State) (k : Nat) (hk : s.ack.count = (k : Int))
    (hk2 : 4 * k < 65536) (q : Pbuf) (hq : same_pkt q (ack_bundle env s)) :
    is_bundle_of q s.ack.ack k := by
  have hlen : (s.ack.count * 4 % 65536).toNat = 4 * k := by
    rw [hk]; omega
  have bl : (ack_bundle env s).len = 4 * k := by
    unfold ack_bundle crypto_hash; simp only; exact hlen
  have bp : ∀ b, b < 4 * k → (ack_bundle env s).payload b = bytes_of_u32s s.ack.ack b := by
    intro b hb
    unfold ack_bundle crypto_hash
    simp only [memcpy, hlen, hb, if_true]
  obtain ⟨_, _, q3, q4, q5⟩ := hq
  have qp : ∀ b, b < 4 * k → q.payload b = bytes_of_u32s s.ack.ack b := by
    intro b hb
    rw [q5 b (by rw [bl]; exact hb), bp b hb]
  refine ⟨q3, by rw [q4, bl], qp, ?_⟩
  intro i hi
  apply u32_at_bytes
  intro j hj
  exact qp _ (by omega)

/-- C7: when `udp_cb` accepts a valid, fresh data packet while the ack queue holds 256
checksums and the peer is known, it sends two packets to the peer, each an ack bundle
(flag `0x0002`, `len = 1024`) of the 256 queued checksums in queue order, then writes the
payload to tun; afterwards the queue has `count = 1` and its entry 0 is the checksum of
the new packet. -/
theorem udp_cb_full_queue (env : Env) (conf : Conf) (s : State) (inp : UdpIn)
    (hv : valid env inp) (hlen : (plain env inp).len ≠ 0)
    (hdup : (is_dup s.hash (plain env inp).chksum).1 = false)
    (hflag : (plain env inp).flag &&& 2 = 0)
    (hfull : s.ack.count = 256) (hpeer : s.remote.addrlen ≠ 0) :
    (∃ q1 n1 q2 n2, (udp_cb env conf s inp).1.out =
        s.out ++ [Event.sendto q1 n1 s.remote.addr s.remote.addrlen,
          Event.sendto q2 n2 s.remote.addr s.remote.addrlen,
          Event.tun_write (plain env inp).payload (plain env inp).len] ∧
      is_bundle_of q1 s.ack.ack 256 ∧ is_bundle_of q2 s.ack.ack 256 ∧ q1.len = 1024 ∧
      same_pkt q1 (ack_bundle env s) ∧ same_pkt q2 (ack_bundle env s)) ∧
    (udp_cb env conf s inp).1.ack.count = 1 ∧
    (udp_cb env conf s inp).1.ack.ack 0 = (plain env inp).chksum := by
  have hfull2 : s.ack.count = (ACK_LEN : Int) := by rw [hfull]; rfl
  rw [udp_cb_data env conf s inp hv hlen hdup hflag]
  obtain ⟨ha, _, _, ho⟩ := update_remote_rest conf
    (accepted env conf s (plain env inp)) inp.addr inp.addrlen
  rw [ha, ho, accepted_ack]
  refine ⟨?_, ?_, ?_⟩
  · obtain ⟨f1, f2, _, f4⟩ := piggyback_frame
      { s with hash := (is_dup s.hash (plain env inp).chksum).2 } (plain env inp)
    have hc : (piggyback { s with hash := (is_dup s.hash (plain env inp).chksum).2 }
        (plain env inp)).ack.count ≠ 0 := by
      rw [f1]; show s.ack.count ≠ 0; rw [hfull]; norm_num
    have hp : (piggyback { s with hash := (is_dup s.hash (plain env inp).chksum).2 }
        (plain env inp)).remote.addrlen ≠ 0 := by
      rw [f4]; exact hpeer
    obtain ⟨q1, n1, q2, n2, e, s1, s2⟩ := flushack_out_known env conf _ hc hp
    have hb : ack_bundle env (piggyback { s with hash := (is_dup s.hash (plain env inp).chksum).2 }
        (plain env inp)) = ack_bundle env s := by
      unfold ack_bundle; rw [f1]
    rw [hb] at s1 s2
    rw [f2, f4] at e
    have b1 := ack_bundle_is_bundle env s 256 (by rw [hfull]; rfl) (by norm_num) q1 s1
    have b2 := ack_bundle_is_bundle env s 256 (by rw [hfull]; rfl) (by norm_num) q2 s2
    refine ⟨q1, n1, q2, n2, ?_, b1, b2, b1.2.1, s1, s2⟩
    unfold accepted enqueue_write
    simp only
    rw [if_pos (by rw [f1]; exact hfull2), e]
    simp
  · unfold enqueued
    simp only [if_pos hfull2]; norm_num
  · unfold enqueued
    simp only
    rw [if_pos hfull2, Function.update_same]
/-- C7 on a server that knows the peer and has a full ack queue: after the data datagram
is accepted the queue has one entry. -/
theorem udp_cb_full_queue_witness :
    (udp_cb env0 server_conf
      { init_state server_conf addr_a with remote := addr_a, ack := full_ack } data_in).1.ack.count
      = 1 :=
  (udp_cb_full_queue env0 server_conf
    { init_state server_conf addr_a with remote := addr_a, ack := full_ack } data_in
    (by decide) (by decide) (by decide) (by decide) rfl (by decide)).2.1

/-! ### `tun_cb` and the piggybacked ack (C6) -/

theorem tun_record_frame (s : State) (now : Int) (b : Pbuf) :
    (tun_record s now b).ack = s.ack ∧ (tun_record s now b).out = s.out ∧
    (tun_record s now b).remote = s.remote ∧ (tun_record s now b).hash = s.hash ∧
    (tun_record s now b).seed = s.seed ∧ (tun_record s now b).pos = s.pos := by
  unfold tun_record
  cases scan_free s.unacked UNACKED_LEN <;> exact ⟨rfl, rfl, rfl, rfl, rfl, rfl⟩

theorem tun_build_flag (env : Env) (s : State) (pbuf : Pbuf) (inp : TunIn) :
    (s.ack.count ≠ 0 → (tun_build env s pbuf inp).flag = 1 ∧
      (tun_build env s pbuf inp).ack = s.ack.ack (s.ack.count - 1).toNat) ∧
    (s.ack.count = 0 → (tun_build env s pbuf inp).flag = 0) := by
  unfold tun_build crypto_hash
  simp only
  constructor
  · intro h; rw [if_pos h]; exact ⟨rfl, rfl⟩
  · intro h; rw [if_neg (not_not.mpr h)]

theorem tun_cb_ack (env : Env) (conf : Conf) (s : State) (pbuf : Pbuf) (inp : TunIn)
    (hn : 0 < inp.n) :
    (tun_cb env conf s pbuf inp).1.ack =
      if s.ack.count ≠ 0 then { s.ack with count := s.ack.count - 1 } else s.ack := by
  unfold tun_cb
  rw [if_neg (not_le.mpr hn)]
  simp only
  rw [sendpkt_ack]
  split_ifs <;> simp [(tun_record_frame _ _ _).1]

theorem tun_cb_remote (env : Env) (conf : Conf) (s : State) (pbuf : Pbuf) (inp : TunIn) :
    (tun_cb env conf s pbuf inp).1.remote = s.remote := by
  unfold tun_cb
  split_ifs <;> simp [(tun_record_frame _ _ _).2.2.1]

theorem tun_cb_hash (env : Env) (conf : Conf) (s : State) (pbuf : Pbuf) (inp : TunIn) :
    (tun_cb env conf s pbuf inp).1.hash = s.hash := by
  unfold tun_cb
  split_ifs <;> simp [(tun_record_frame _ _ _).2.2.2.1]

/-- The events of `sendpkt` for a packet with the fields of `b`: at most one `sendto`, of a
packet with the fields of `b`, and exactly one when the peer is known. -/
theorem sendpkt_out_same (env : Env) (conf : Conf) (s : State) (p b : Pbuf)
    (hp : same_pkt p b) :
    ∃ es, (sendpkt env conf s p).1.out = s.out ++ es ∧
      (∀ q, q ∈ sent es → same_pkt q b) ∧ tun_write_count es = 0 ∧
      es.length = if s.remote.addrlen ≠ 0 then 1 else 0 := by
  rw [sendpkt_out]
  refine ⟨_, rfl, ?_, ?_, ?_⟩
  · intro q hq
    split_ifs at hq
    · simp [sent, Event.pkt] at hq
      rw [hq]
      exact same_pkt_trans (wire_same env conf s p) hp
    · simp [sent] at hq
  · split_ifs <;> simp [tun_write_count]
  · split_ifs <;> rfl

/-- The events of one call of `tun_cb` that reads a datagram: three `sendto` with
triplication and one without when the peer is known, none otherwise, each of a packet
with the fields of the packet built. -/
theorem tun_cb_out (env : Env) (conf : Conf) (s : State) (pbuf : Pbuf) (inp : TunIn)
    (hn : 0 < inp.n) :
    ∃ es, (tun_cb env conf s pbuf inp).1.out = s.out ++ es ∧
      (∀ q, q ∈ sent es → same_pkt q (tun_build env s pbuf inp)) ∧ tun_write_count es = 0 ∧
      es.length = if s.remote.addrlen ≠ 0 then (if conf.duplicate then 3 else 1) else 0 := by
  have hsame : same_pkt (tun_build env s pbuf inp) (tun_build env s pbuf inp) :=
    ⟨rfl, rfl, rfl, rfl, fun _ _ => rfl⟩
  unfold tun_cb
  rw [if_neg (not_le.mpr hn)]
  simp only
  generalize hs1 : (if s.ack.count ≠ 0 then
    ({ s with ack := { s.ack with count := s.ack.count - 1 } } : State) else s) = s1
  have h1o : s1.out = s.out := by rw [← hs1]; split_ifs <;> rfl
  have h1r : s1.remote = s.remote := by rw [← hs1]; split_ifs <;> rfl
  obtain ⟨_, f2, f3, _⟩ := tun_record_frame s1 inp.now (tun_build env s pbuf inp)
  by_cases hd : conf.duplicate = true
  · rw [if_pos hd]
    obtain ⟨e1, o1, p1, w1, l1⟩ := sendpkt_out_same env conf
      (tun_record s1 inp.now (tun_build env s pbuf inp))
      (copypkt env.uninit (tun_build env s pbuf inp)) _ (copypkt_same _ _)
    obtain ⟨e2, o2, p2, w2, l2⟩ := sendpkt_out_same env conf
      (sendpkt env conf (tun_record s1 inp.now (tun_build env s pbuf inp))
        (copypkt env.uninit (tun_build env s pbuf inp))).1
      (copypkt (sendpkt env conf (tun_record s1 inp.now (tun_build env s pbuf inp))
        (copypkt env.uninit (tun_build env s pbuf inp))).2 (tun_build env s pbuf inp)) _
      (copypkt_same _ _)
    obtain ⟨e3, o3, p3, w3, l3⟩ := sendpkt_out_same env conf
      (sendpkt env conf (sendpkt env conf (tun_record s1 inp.now (tun_build env s pbuf inp))
        (copypkt env.uninit (tun_build env s pbuf inp))).1
      (copypkt (sendpkt env conf (tun_record s1 inp.now (tun_build env s pbuf inp))
        (copypkt env.uninit (tun_build env s pbuf inp))).2 (tun_build env s pbuf inp))).1
      (tun_build env s pbuf inp) _ hsame
    simp only [sendpkt_remote, f3, h1r] at l1 l2 l3
    refine ⟨e1 ++ e2 ++ e3, ?_, ?_, ?_, ?_⟩
    · rw [o3, o2, o1, f2, h1o]; simp
    · intro q hq
      simp only [sent_append, List.mem_append] at hq
      rcases hq with (hq | hq) | hq
      · exact p1 q hq
      · exact p2 q hq
      · exact p3 q hq
    · simp [w1, w2, w3]
    · simp only [List.length_append, l1, l2, l3]
      split_ifs <;> rfl
  · rw [if_neg hd]
    obtain ⟨e3, o3, p3, w3, l3⟩ := sendpkt_out_same env conf
      (tun_record s1 inp.now (tun_build env s pbuf inp)) (tun_build env s pbuf inp) _ hsame
    simp only [f3, h1r] at l3
    refine ⟨e3, ?_, p3, w3, ?_⟩
    · rw [o3, f2, h1o]
    · rw [l3]
      simp [hd]
theorem tun_cb_count (env : Env) (conf : Conf) (s : State) (pbuf : Pbuf) (inp : TunIn)
    (hn : 0 < inp.n) (k : Nat) (hk : s.ack.count = (k : Int)) :
    (tun_cb env conf s pbuf inp).1.ack.count = ((k - 1 : Nat) : Int) ∧
    (tun_cb env conf s pbuf inp).1.ack.ack = s.ack.ack := by
  rw [tun_cb_ack env conf s pbuf inp hn]
  by_cases h0 : s.ack.count ≠ 0
  · rw [if_pos h0]
    refine ⟨?_, rfl⟩
    show s.ack.count - 1 = _
    omega
  · rw [if_neg h0]
    refine ⟨?_, rfl⟩
    omega

theorem tun_run_ack (env : Env) (conf : Conf) (pre : List TunIn) (s : State) (pbuf : Pbuf)
    (hpre : ∀ i, i ∈ pre → 0 < i.n) (k : Nat) (hk : s.ack.count = (k : Int)) :
    (tun_run env conf (s, pbuf) pre).1.ack.count = ((k - pre.length : Nat) : Int) ∧
    (tun_run env conf (s, pbuf) pre).1.ack.ack = s.ack.ack ∧
    (tun_run env conf (s, pbuf) pre).1.remote = s.remote := by
  induction pre generalizing s pbuf k with
  | nil => exact ⟨by simpa [tun_run] using hk, rfl, rfl⟩
  | cons i pre ih =>
    have hi : 0 < i.n := hpre i (List.mem_cons_self _ _)
    obtain ⟨c1, c2⟩ := tun_cb_count env conf s pbuf i hi k hk
    have hstep : tun_run env conf (s, pbuf) (i :: pre) =
        tun_run env conf ((tun_cb env conf s pbuf i).1, (tun_cb env conf s pbuf i).2) pre := rfl
    obtain ⟨a1, a2, a3⟩ := ih (tun_cb env conf s pbuf i).1 (tun_cb env conf s pbuf i).2
      (fun j hj => hpre j (List.mem_cons_of_mem _ hj)) (k - 1) c1
    rw [hstep]
    refine ⟨?_, ?_, ?_⟩
    · rw [a1, List.length_cons]
      congr 1
      omega
    · rw [a2, c2]
    · rw [a3, tun_cb_remote]

/-- C6: from a state whose ack queue holds `k` checksums `ack[0..k)`, after `j` reads of
a datagram by `tun_cb` with no flush or enqueue in between, the next packet `tun_cb`
builds has flag 1 and `ack = ack[k - 1 - j]` when `j < k`, the count going from `k - j` to
`k - j - 1`, and has flag 0 when `j ≥ k`; every packet the call sends has the fields of
the packet built, and one is sent at least when the peer is known. -/
theorem ack_lifo_piggyback (env : Env) (conf : Conf) (s : State) (pbuf : Pbuf)
    (pre : List TunIn) (inp : TunIn) (k : Nat)
    (hk : s.ack.count = (k : Int)) (hpre : ∀ i, i ∈ pre → 0 < i.n) (hn : 0 < inp.n) :
    (pre.length < k →
      (tun_build env (tun_run env conf (s, pbuf) pre).1
          (tun_run env conf (s, pbuf) pre).2 inp).flag = 1 ∧
      (tun_build env (tun_run env conf (s, pbuf) pre).1
          (tun_run env conf (s, pbuf) pre).2 inp).ack = s.ack.ack (k - 1 - pre.length) ∧
      (tun_run env conf (s, pbuf) pre).1.ack.count = (k : Int) - pre.length ∧
      (tun_run env conf (s, pbuf) (pre ++ [inp])).1.ack.count = (k : Int) - pre.length - 1) ∧
    (k ≤ pre.length →
      (tun_build env (tun_run env conf (s, pbuf) pre).1
          (tun_run env conf (s, pbuf) pre).2 inp).flag = 0 ∧
      (tun_run env conf (s, pbuf) (pre ++ [inp])).1.ack.count = 0) ∧
    ∃ es, (tun_run env conf (s, pbuf) (pre ++ [inp])).1.out =
        (tun_run env conf (s, pbuf) pre).1.out ++ es ∧
      (∀ q, q ∈ sent es → same_pkt q (tun_build env (tun_run env conf (s, pbuf) pre).1
          (tun_run env conf (s, pbuf) pre).2 inp)) ∧
      (s.remote.addrlen ≠ 0 → es ≠ []) := by
  obtain ⟨a1, a2, a3⟩ := tun_run_ack env conf pre s pbuf hpre k hk
  have hall : ∀ i, i ∈ pre ++ [inp] → 0 < i.n := by
    intro i hi
    rcases List.mem_append.mp hi with h | h
    · exact hpre i h
    · rw [List.mem_singleton.mp h]; exact hn
  obtain ⟨b1, _, _⟩ := tun_run_ack env conf (pre ++ [inp]) s pbuf hall k hk
  rw [List.length_append, List.length_singleton] at b1
  have hstep : tun_run env conf (s, pbuf) (pre ++ [inp]) =
      tun_cb env conf (tun_run env conf (s, pbuf) pre).1 (tun_run env conf (s, pbuf) pre).2 inp := by
    simp [tun_run, List.foldl_append]
  obtain ⟨f1, f2⟩ := tun_build_flag env (tun_run env conf (s, pbuf) pre).1
    (tun_run env conf (s, pbuf) pre).2 inp
  refine ⟨?_, ?_, ?_⟩
  · intro hj
    have hc : (tun_run env conf (s, pbuf) pre).1.ack.count ≠ 0 := by rw [a1]; omega
    obtain ⟨g1, g2⟩ := f1 hc
    refine ⟨g1, ?_, ?_, ?_⟩
    · rw [g2, a2, a1]
      congr 1
      omega
    · rw [a1]; omega
    · rw [b1]; omega
  · intro hj
    have hc : (tun_run env conf (s, pbuf) pre).1.ack.count = 0 := by rw [a1]; omega
    refine ⟨f2 hc, ?_⟩
    rw [b1]; omega
  · rw [hstep]
    obtain ⟨es, o, p, _, l⟩ := tun_cb_out env conf (tun_run env conf (s, pbuf) pre).1
      (tun_run env conf (s, pbuf) pre).2 inp hn
    refine ⟨es, o, p, ?_⟩
    intro hp
    rw [a3, if_pos hp] at l
    intro he
    rw [he] at l
    split_ifs at l <;> simp at l

/-- C6 on a queue holding 10, 11, 12: after one read the next packet built carries flag 1
and `ack = 11`. -/
theorem ack_lifo_piggyback_witness :
    (tun_build env0 (tun_run env0 client_conf (three_acks, zero_pbuf) [tun_in]).1
        (tun_run env0 client_conf (three_acks, zero_pbuf) [tun_in]).2 tun_in).flag = 1 ∧
    (tun_build env0 (tun_run env0 client_conf (three_acks, zero_pbuf) [tun_in]).1
        (tun_run env0 client_conf (three_acks, zero_pbuf) [tun_in]).2 tun_in).ack = 11 :=
  ⟨((ack_lifo_piggyback env0 client_conf three_acks zero_pbuf [tun_in] tun_in 3 rfl
      (by intro i hi; rw [List.mem_singleton.mp hi]; decide) (by decide)).1 (by decide)).1,
    ((ack_lifo_piggyback env0 client_conf three_acks zero_pbuf [tun_in] tun_in 3 rfl
      (by intro i hi; rw [List.mem_singleton.mp hi]; decide) (by decide)).1 (by decide)).2.1⟩
/-! ### The slot scan of `tun_cb` -/

theorem scan_free_none (t : Nat → Unacked) (n : Nat) :
    scan_free t n = none ↔ ∀ j, j < n → (t j).send ≠ 0 := by
  induction n with
  | zero => simp [scan_free]
  | succ n ih =>
    rw [scan_free]
    cases h : scan_free t n with
    | some i =>
      constructor
      · intro hc
        exact absurd hc (by simp)
      · intro hall
        have := ih.mpr (fun j hj => hall j (by omega))
        rw [h] at this
        exact absurd this (by simp)
    | none =>
      have hn := ih.mp h
      by_cases hs : (t n).send = 0
      · simp only [if_pos hs]
        constructor
        · intro hc
          exact absurd hc (by simp)
        · intro hall
          exact absurd hs (hall n (by omega))
      · simp only [if_neg hs]
        constructor
        · intro _ j hj
          rcases Nat.lt_succ_iff_lt_or_eq.mp hj with h1 | h1
          · exact hn j h1
          · rw [h1]; exact hs
        · intro _; trivial

theorem scan_free_some (t : Nat → Unacked) (n i : Nat) (h : scan_free t n = some i) :
    i < n ∧ (t i).send = 0 ∧ ∀ j, j < i → (t j).send ≠ 0 := by
  induction n with
  | zero => simp [scan_free] at h
  | succ n ih =>
    rw [scan_free] at h
    cases h1 : scan_free t n with
    | some k =>
      rw [h1] at h
      simp only [Option.some.injEq] at h
      subst h
      obtain ⟨a, b, c⟩ := ih h1
      exact ⟨by omega, b, c⟩
    | none =>
      rw [h1] at h
      simp only at h
      by_cases hs : (t n).send = 0
      · rw [if_pos hs] at h
        simp only [Option.some.injEq] at h
        subst h
        exact ⟨by omega, hs, (scan_free_none t _).mp h1⟩
      · rw [if_neg hs] at h
        exact absurd h (by simp)

theorem scan_free_first (t : Nat → Unacked) (n i : Nat) (hi : i < n) (h0 : (t i).send = 0)
    (hb : ∀ j, j < i → (t j).send ≠ 0) : scan_free t n = some i := by
  cases h : scan_free t n with
  | none => exact absurd h0 ((scan_free_none t n).mp h i hi)
  | some k =>
    obtain ⟨_, b, c⟩ := scan_free_some t n k h
    have : k = i := by
      rcases Nat.lt_trichotomy k i with h1 | h1 | h1
      · exact absurd b (hb k h1)
      · exact h1
      · exact absurd h0 (c i h1)
    rw [this]

theorem tun_cb_unacked (env : Env) (conf : Conf) (s : State) (pbuf : Pbuf) (inp : TunIn)
    (hn : 0 < inp.n) :
    (tun_cb env conf s pbuf inp).1.unacked =
      (tun_record s inp.now (tun_build env s pbuf inp)).unacked := by
  unfold tun_cb
  rw [if_neg (not_le.mpr hn)]
  simp only
  rw [sendpkt_unacked]
  have h1 : ∀ s1 : State, s1.unacked = s.unacked →
      (tun_record s1 inp.now (tun_build env s pbuf inp)).unacked =
        (tun_record s inp.now (tun_build env s pbuf inp)).unacked := by
    intro s1 h
    unfold tun_record
    rw [h]
    cases scan_free s.unacked UNACKED_LEN with
    | none => exact h
    | some i => simp
  split_ifs <;> (try simp only [sendpkt_unacked]) <;> exact h1 _ rfl

theorem tun_cb_idle (env : Env) (conf : Conf) (s : State) (pbuf : Pbuf) (inp : TunIn)
    (hn : inp.n ≤ 0) : (tun_cb env conf s pbuf inp).1 = s := by
  unfold tun_cb
  rw [if_pos hn]

theorem tun_record_some (s : State) (now : Int) (b : Pbuf) (i : Nat)
    (h : scan_free s.unacked UNACKED_LEN = some i) :
    (tun_record s now b).unacked = Function.update s.unacked i
      { send := 1, stime := now, pbuf := copypkt (s.unacked i).pbuf b } := by
  unfold tun_record
  rw [h]

theorem tun_record_none (s : State) (now : Int) (b : Pbuf)
    (h : scan_free s.unacked UNACKED_LEN = none) : tun_record s now b = s := by
  unfold tun_record
  rw [h]
/-! ### `retransmit` slot by slot -/

theorem resend_loop (env : Env) (conf : Conf) (i m : Nat) (s1 : State) (tmp0 : Pbuf) :
    (forLoop m (fun _ (st : State × Pbuf) =>
        sendpkt env conf st.1 (copypkt st.2 (st.1.unacked i).pbuf)) (s1, tmp0)).1.unacked
      = s1.unacked ∧
    (forLoop m (fun _ (st : State × Pbuf) =>
        sendpkt env conf st.1 (copypkt st.2 (st.1.unacked i).pbuf)) (s1, tmp0)).1.remote
      = s1.remote ∧
    (forLoop m (fun _ (st : State × Pbuf) =>
        sendpkt env conf st.1 (copypkt st.2 (st.1.unacked i).pbuf)) (s1, tmp0)).1.ack
      = s1.ack ∧
    (forLoop m (fun _ (st : State × Pbuf) =>
        sendpkt env conf st.1 (copypkt st.2 (st.1.unacked i).pbuf)) (s1, tmp0)).1.hash
      = s1.hash ∧
    ∃ es, (forLoop m (fun _ (st : State × Pbuf) =>
        sendpkt env conf st.1 (copypkt st.2 (st.1.unacked i).pbuf)) (s1, tmp0)).1.out
        = s1.out ++ es ∧
      (∀ q, q ∈ sent es → same_pkt q (s1.unacked i).pbuf) ∧ tun_write_count es = 0 ∧
      es.length = if s1.remote.addrlen ≠ 0 then m else 0 := by
  induction m with
  | zero =>
    refine ⟨rfl, rfl, rfl, rfl, [], by simp [forLoop], ?_, rfl, by simp⟩
    intro q hq
    simp [sent] at hq
  | succ m ih =>
    obtain ⟨h1, h2, h3, h4, es, h5, h6, h7, h8⟩ := ih
    rw [forLoop]
    simp only [sendpkt_unacked, sendpkt_remote, sendpkt_ack, sendpkt_hash]
    refine ⟨h1, h2, h3, h4, ?_⟩
    obtain ⟨e1, o1, p1, w1, l1⟩ := sendpkt_out_same env conf
      (forLoop m (fun _ (st : State × Pbuf) =>
        sendpkt env conf st.1 (copypkt st.2 (st.1.unacked i).pbuf)) (s1, tmp0)).1
      (copypkt (forLoop m (fun _ (st : State × Pbuf) =>
        sendpkt env conf st.1 (copypkt st.2 (st.1.unacked i).pbuf)) (s1, tmp0)).2
        ((forLoop m (fun _ (st : State × Pbuf) =>
        sendpkt env conf st.1 (copypkt st.2 (st.1.unacked i).pbuf)) (s1, tmp0)).1.unacked i).pbuf)
      (s1.unacked i).pbuf (by rw [h1]; exact copypkt_same _ _)
    refine ⟨es ++ e1, ?_, ?_, ?_, ?_⟩
    · rw [o1, h5, List.append_assoc]
    · intro q hq
      rw [sent_append, List.mem_append] at hq
      rcases hq with hq | hq
      · exact h6 q hq
      · exact p1 q hq
    · simp [h7, w1]
    · rw [List.length_append, h8, l1, h2]
      split_ifs <;> rfl
theorem retransmit_body_spec (env : Env) (conf : Conf) (now : Int) (i : Nat) (s : State) :
    (retransmit_body env conf now i s).unacked =
      Function.update s.unacked i (slot_step now (s.unacked i)) ∧
    (retransmit_body env conf now i s).remote = s.remote ∧
    (retransmit_body env conf now i s).ack = s.ack ∧
    (retransmit_body env conf now i s).hash = s.hash ∧
    ∃ es, (retransmit_body env conf now i s).out = s.out ++ es ∧
      (∀ q, q ∈ sent es → same_pkt q (s.unacked i).pbuf) ∧ tun_write_count es = 0 ∧
      es.length = if s.remote.addrlen ≠ 0 then slot_copies now (s.unacked i) else 0 := by
  by_cases hd : due now (s.unacked i)
  · have hd1 := hd.1
    have hd2 := hd.2
    obtain ⟨h1, h2, h3, h4, es, h5, h6, h7, h8⟩ := resend_loop env conf i
      (wrap32 ((s.unacked i).send + 1)).toNat
      { s with unacked := (Function.update s.unacked i
          { s.unacked i with send := wrap32 ((s.unacked i).send + 1), stime := now }) }
      env.uninit
    simp only [Function.update_same] at h6
    unfold retransmit_body
    rw [if_pos hd1]
    simp only
    rw [if_pos hd2]
    simp only [Function.update_same]
    have hstep : slot_step now (s.unacked i) =
        { s.unacked i with
          send := if wrap32 ((s.unacked i).send + 1) ≥ 4 then 0
            else wrap32 ((s.unacked i).send + 1)
          stime := now } := by
      unfold slot_step; rw [if_pos hd]
    have hcop : slot_copies now (s.unacked i) = (wrap32 ((s.unacked i).send + 1)).toNat := by
      unfold slot_copies; rw [if_pos hd]
    rw [hstep, hcop]
    by_cases h4le : wrap32 ((s.unacked i).send + 1) ≥ 4
    · rw [h1]
      simp only [Function.update_same, if_pos h4le, Function.update_idem]
      exact ⟨trivial, h2, h3, h4, es, h5, h6, h7, h8⟩
    · rw [h1]
      simp only [Function.update_same, if_neg h4le]
      exact ⟨h1, h2, h3, h4, es, h5, h6, h7, h8⟩
  · have hstep : slot_step now (s.unacked i) = s.unacked i := by
      unfold slot_step; rw [if_neg hd]
    have hcop : slot_copies now (s.unacked i) = 0 := by
      unfold slot_copies; rw [if_neg hd]
    have hb : retransmit_body env conf now i s = s := by
      unfold retransmit_body
      by_cases h1 : (s.unacked i).send ≠ 0
      · rw [if_pos h1]
        simp only
        rw [if_neg (fun h2 => hd ⟨h1, h2⟩)]
      · rw [if_neg h1]
    rw [hb, hstep, hcop]
    refine ⟨by simp, rfl, rfl, rfl, [], by simp, ?_, rfl, by simp⟩
    intro q hq
    simp [sent] at hq
theorem sent_length (es : List Event) : (sent es).length + tun_write_count es = es.length := by
  induction es with
  | nil => rfl
  | cons e es ih =>
    cases e with
    | sendto p n a l =>
      simp only [sent, tun_write_count, List.filterMap_cons, Event.pkt, List.filter_cons,
        List.length_cons] at ih ⊢
      simp only [Bool.false_eq_true, if_false]
      omega
    | tun_write p l =>
      simp only [sent, tun_write_count, List.filterMap_cons, Event.pkt, List.filter_cons,
        List.length_cons] at ih ⊢
      simp only [if_true, List.length_cons]
      omega

theorem sent_count_same (c k : Nat) (es : List Event)
    (h : ∀ q, q ∈ sent es → q.chksum = k) (hw : tun_write_count es = 0) :
    sent_count c es = if k = c then es.length else 0 := by
  have hl := sent_length es
  rw [hw, Nat.add_zero] at hl
  unfold sent_count
  by_cases hk : k = c
  · rw [if_pos hk, ← hl, List.filter_eq_self.mpr]
    intro q hq
    simp [h q hq, hk]
  · rw [if_neg hk, List.length_eq_zero, List.filter_eq_nil_iff]
    intro q hq
    simp [h q hq, hk]

theorem retransmit_loop (env : Env) (conf : Conf) (now : Int) (s : State) (n : Nat) :
    (forLoop n (retransmit_body env conf now) s).unacked =
      (fun j => if j < n then slot_step now (s.unacked j) else s.unacked j) ∧
    (forLoop n (retransmit_body env conf now) s).remote = s.remote ∧
    (forLoop n (retransmit_body env conf now) s).ack = s.ack ∧
    (forLoop n (retransmit_body env conf now) s).hash = s.hash ∧
    ∃ es, (forLoop n (retransmit_body env conf now) s).out = s.out ++ es ∧
      tun_write_count es = 0 ∧
      ∀ c, sent_count c es = Finset.sum (Finset.range n) (fun j =>
        if (s.unacked j).pbuf.chksum = c ∧ s.remote.addrlen ≠ 0 then
          slot_copies now (s.unacked j) else 0) := by
  induction n with
  | zero =>
    refine ⟨?_, rfl, rfl, rfl, [], by simp [forLoop], rfl, ?_⟩
    · funext j; simp [forLoop]
    · intro c; simp [sent_count, sent]
  | succ n ih =>
    obtain ⟨h1, h2, h3, h4, es, h5, h6, h7⟩ := ih
    obtain ⟨b1, b2, b3, b4, eb, b5, b6, b7, b8⟩ := retransmit_body_spec env conf now n
      (forLoop n (retransmit_body env conf now) s)
    have hn : (forLoop n (retransmit_body env conf now) s).unacked n = s.unacked n := by
      rw [h1]; simp
    rw [hn] at b1 b6 b8
    rw [h2] at b8
    rw [forLoop]
    refine ⟨?_, b2.trans h2, b3.trans h3, b4.trans h4, es ++ eb, ?_, ?_, ?_⟩
    · rw [b1, h1]
      funext j
      by_cases hj : j = n
      · subst hj; simp
      · rw [Function.update_noteq hj]
        have : (j < n + 1) ↔ (j < n) := by omega
        simp only [this]
    · rw [b5, h5, List.append_assoc]
    · simp [h6, b7]
    · intro c
      rw [sent_count_append, h7 c, Finset.sum_range_succ]
      congr 1
      rw [sent_count_same c (s.unacked n).pbuf.chksum eb (fun q hq => (b6 q hq).1) b7, b8]
      by_cases hc : (s.unacked n).pbuf.chksum = c
      · by_cases hp : s.remote.addrlen ≠ 0
        · simp [hc, hp]
        · simp [hc, hp]
      · simp [hc]

theorem retransmit_spec (env : Env) (conf : Conf) (now : Int) (s : State) :
    (retransmit env conf now s).unacked =
      (fun j => if j < UNACKED_LEN then slot_step now (s.unacked j) else s.unacked j) ∧
    (retransmit env conf now s).remote = s.remote ∧
    (retransmit env conf now s).ack = s.ack ∧
    (retransmit env conf now s).hash = s.hash ∧
    ∃ es, (retransmit env conf now s).out = s.out ++ es ∧
      tun_write_count es = 0 ∧
      ∀ c, sent_count c es = Finset.sum (Finset.range UNACKED_LEN) (fun j =>
        if (s.unacked j).pbuf.chksum = c ∧ s.remote.addrlen ≠ 0 then
          slot_copies now (s.unacked j) else 0) :=
  retransmit_loop env conf now s UNACKED_LEN
/-! ### One checksum, one slot (C4) -/

theorem shrinks_refl (t : Nat → Unacked) : shrinks t t :=
  fun _ _ h => ⟨h, rfl⟩

theorem shrinks_trans {t1 t2 t3 : Nat → Unacked} (h12 : shrinks t1 t2) (h23 : shrinks t2 t3) :
    shrinks t1 t3 := by
  intro i hi h
  obtain ⟨a, b⟩ := h23 i hi h
  obtain ⟨c, d⟩ := h12 i hi a
  exact ⟨c, b.trans d⟩

theorem uniq_shrinks {t1 t2 : Nat → Unacked} (hu : uniq t1) (hs : shrinks t1 t2) : uniq t2 := by
  intro i j hi hj h1 h2 hc
  obtain ⟨a1, b1⟩ := hs i hi h1
  obtain ⟨a2, b2⟩ := hs j hj h2
  exact hu i j hi hj a1 a2 (by rw [← b1, ← b2]; exact hc)

theorem acknowledge_shrinks (c : Nat) (t : Nat → Unacked) : shrinks t (acknowledge c t) := by
  intro i _ h
  rw [acknowledge_apply] at h ⊢
  split_ifs at h ⊢ with hc
  · exact absurd rfl h
  · exact ⟨h, rfl⟩

theorem acknowledge_loop_shrinks (f : Nat → Nat) (m : Nat) (t : Nat → Unacked) :
    shrinks t (forLoop m (fun i t => acknowledge (f i) t) t) := by
  induction m with
  | zero => exact shrinks_refl t
  | succ m ih =>
    rw [forLoop]
    exact shrinks_trans ih
      (acknowledge_shrinks (f m) (forLoop m (fun i t => acknowledge (f i) t) t))

theorem slot_step_in_use (now : Int) (u : Unacked) (h : (slot_step now u).send ≠ 0) :
    u.send ≠ 0 ∧ (slot_step now u).pbuf = u.pbuf := by
  unfold slot_step at h ⊢
  split_ifs at h ⊢ with hd
  · exact ⟨hd.1, rfl⟩
  · exact ⟨hd.1, rfl⟩
  · exact ⟨h, rfl⟩

theorem slot_step_pbuf (now : Int) (u : Unacked) : (slot_step now u).pbuf = u.pbuf := by
  unfold slot_step
  split_ifs <;> rfl

theorem retransmit_shrinks (env : Env) (conf : Conf) (now : Int) (s : State) :
    shrinks s.unacked (retransmit env conf now s).unacked := by
  intro i hi h
  rw [(retransmit_spec env conf now s).1] at h ⊢
  simp only [hi, if_true] at h ⊢
  obtain ⟨a, b⟩ := slot_step_in_use now _ h
  exact ⟨a, by rw [b]⟩

theorem udp_cb_short (env : Env) (conf : Conf) (s : State) (inp : UdpIn)
    (hn : inp.n < (PAYLOAD_OFFSET : Int)) : (udp_cb env conf s inp).1 = s := by
  unfold udp_cb
  rw [if_pos hn]

theorem udp_cb_invalid (env : Env) (conf : Conf) (s : State) (inp : UdpIn)
    (hn : (PAYLOAD_OFFSET : Int) ≤ inp.n) (hd : (env.crypto_decrypt inp.raw inp.n).1 ≠ 0) :
    (udp_cb env conf s inp).1 = s := by
  unfold udp_cb
  rw [if_neg (not_lt.mpr hn)]
  simp only
  rw [if_pos hd]

theorem udp_cb_len_zero_client (env : Env) (conf : Conf) (s : State) (inp : UdpIn)
    (hmode : conf.mode ≠ Mode.server) (hv : valid env inp) (hlen : (plain env inp).len = 0) :
    (udp_cb env conf s inp).1 = s := by
  unfold plain at hlen
  unfold udp_cb
  simp only
  rw [if_neg (not_lt.mpr hv.1), if_neg (not_not.mpr hv.2), if_pos hlen, if_neg hmode]

theorem accepted_unacked (env : Env) (conf : Conf) (s : State) (p : Pbuf) :
    (accepted env conf s p).unacked =
      if p.flag &&& 1 ≠ 0 then acknowledge p.ack s.unacked else s.unacked := by
  unfold accepted enqueue_write piggyback
  simp only
  split_ifs <;> simp

theorem udp_cb_shrinks (env : Env) (conf : Conf) (s : State) (inp : UdpIn) :
    shrinks s.unacked (udp_cb env conf s inp).1.unacked := by
  by_cases hn : inp.n < (PAYLOAD_OFFSET : Int)
  · rw [udp_cb_short env conf s inp hn]; exact shrinks_refl _
  · have hn2 := not_lt.mp hn
    by_cases hd : (env.crypto_decrypt inp.raw inp.n).1 = 0
    · have hv : valid env inp := ⟨hn2, hd⟩
      by_cases hlen : (plain env inp).len = 0
      · by_cases hmode : conf.mode = Mode.server
        · rw [udp_cb_len_zero env conf s inp hmode hn2 hd hlen, heartbeat_unacked]
          exact shrinks_refl _
        · rw [udp_cb_len_zero_client env conf s inp hmode hv hlen]; exact shrinks_refl _
      · by_cases hdup : (is_dup s.hash (plain env inp).chksum).1 = true
        · rw [udp_cb_dup env conf s inp hv hlen hdup]; exact shrinks_refl _
        · have hdup2 : (is_dup s.hash (plain env inp).chksum).1 = false := by simpa using hdup
          by_cases hflag : (plain env inp).flag &&& 2 = 0
          · rw [udp_cb_data env conf s inp hv hlen hdup2 hflag,
              (update_remote_rest conf _ _ _).2.1, accepted_unacked]
            split_ifs
            · exact acknowledge_shrinks _ _
            · exact shrinks_refl _
          · rw [udp_cb_bundle env conf s inp hv hlen hdup2 hflag]
            exact acknowledge_loop_shrinks _ _ _
    · rw [udp_cb_invalid env conf s inp hn2 hd]; exact shrinks_refl _

theorem tun_record_uniq (s : State) (now : Int) (b : Pbuf) (hu : uniq s.unacked)
    (hf : ∀ j, j < UNACKED_LEN → ¬ stores s.unacked b.chksum j) :
    uniq (tun_record s now b).unacked := by
  cases h : scan_free s.unacked UNACKED_LEN with
  | none => rw [tun_record_none s now b h]; exact hu
  | some k =>
    rw [tun_record_some s now b k h]
    intro i j hi hj h1 h2 hc
    by_cases hik : i = k
    · by_cases hjk : j = k
      · rw [hik, hjk]
      · exfalso
        rw [hik, Function.update_same] at hc
        rw [Function.update_noteq hjk] at h2 hc
        exact hf j hj ⟨h2, hc.symm⟩
    · by_cases hjk : j = k
      · exfalso
        rw [hjk, Function.update_same] at hc
        rw [Function.update_noteq hik] at h1 hc
        exact hf i hi ⟨h1, hc⟩
      · rw [Function.update_noteq hik] at h1 hc
        rw [Function.update_noteq hjk] at h2 hc
        exact hu i j hi hj h1 h2 hc

theorem step_uniq (env : Env) (conf : Conf) (e : State × Pbuf) (x : Input)
    (hu : uniq e.1.unacked) (hf : fresh_tuns env conf e [x]) :
    uniq (step env conf e x).1.unacked := by
  cases x with
  | tun i =>
    show uniq (tun_cb env conf e.1 e.2 i).1.unacked
    by_cases hn : 0 < i.n
    · rw [tun_cb_unacked env conf e.1 e.2 i hn]
      exact tun_record_uniq e.1 i.now _ hu (hf.1 hn)
    · rw [tun_cb_idle env conf e.1 e.2 i (not_lt.mp hn)]; exact hu
  | udp i => exact uniq_shrinks hu (udp_cb_shrinks env conf e.1 i)
  | flush =>
    show uniq (flushack env conf e.1).unacked
    rw [flushack_unacked]; exact hu
  | retrans now => exact uniq_shrinks hu (retransmit_shrinks env conf now e.1)
  | keepalive now =>
    show uniq (heartbeat env conf now e.1).unacked
    rw [heartbeat_unacked]; exact hu

theorem init_uniq (conf : Conf) (srv : Remote) : uniq (init_state conf srv).unacked := by
  intro i j _ _ h
  exact absurd rfl h

theorem tun_build_chksum (env : Env) (s : State) (pbuf : Pbuf) (inp : TunIn) :
    (tun_build env s pbuf inp).chksum =
      env.digest (if s.ack.count ≠ 0 then 1 else 0) (inp.n % 65536).toNat
        ((List.range (inp.n % 65536).toNat).map (memcpy pbuf.payload inp.data inp.n.toNat))
        % 2 ^ 32 := by
  unfold tun_build crypto_hash
  simp only
  split_ifs <;> rfl

/-- C4, as the code has it: in every state reachable from the initial state through
`tun_cb`, `udp_cb`, `flushack`, `retransmit` and `heartbeat`, at most one in-use slot of the
retransmit table stores any given checksum, provided that each packet `tun_cb` builds has a
checksum that no in-use slot stores at that moment. -/
theorem unique_checksum_slots (env : Env) (conf : Conf) (srv : Remote) (pbuf : Pbuf)
    (l : List Input) (hf : fresh_tuns env conf (init_state conf srv, pbuf) l) :
    uniq (run env conf (init_state conf srv, pbuf) l).1.unacked := by
  have key : ∀ (l : List Input) (e : State × Pbuf), uniq e.1.unacked →
      fresh_tuns env conf e l → uniq (run env conf e l).1.unacked := by
    intro l
    induction l with
    | nil => intro e hu _; exact hu
    | cons x xs ih =>
      intro e hu hf
      have hstep : run env conf e (x :: xs) = run env conf (step env conf e x) xs := rfl
      rw [hstep]
      exact ih (step env conf e x) (step_uniq env conf e x hu ⟨hf.1, trivial⟩) hf.2
  exact key l _ (init_uniq conf srv) hf

theorem twice_table_stores :
    stores twice_table 9 0 ∧ stores twice_table 9 1 := by
  unfold twice_table
  have hn : 0 < tun_in.n := by decide
  have hrun : run env0 client_conf (init_state client_conf addr_a, zero_pbuf)
      [Input.tun tun_in, Input.tun tun_in] =
      tun_cb env0 client_conf
        (tun_cb env0 client_conf (init_state client_conf addr_a) zero_pbuf tun_in).1
        (tun_cb env0 client_conf (init_state client_conf addr_a) zero_pbuf tun_in).2 tun_in := by
    simp only [run, List.foldl_cons, List.foldl_nil, step]
  have h1 : (tun_cb env0 client_conf (init_state client_conf addr_a) zero_pbuf tun_in).1.unacked
      = Function.update (init_state client_conf addr_a).unacked 0
        { send := 1, stime := 0, pbuf := copypkt zero_pbuf
            (tun_build env0 (init_state client_conf addr_a) zero_pbuf tun_in) } := by
    rw [tun_cb_unacked _ _ _ _ _ hn]
    exact tun_record_some _ _ _ 0
      (scan_free_first _ _ 0 (by decide) rfl (fun j hj => absurd hj (Nat.not_lt_zero j)))
  have hc1 : (tun_build env0 (init_state client_conf addr_a) zero_pbuf tun_in).chksum = 9 := by
    rw [tun_build_chksum]; decide
  have hk : (tun_cb env0 client_conf (init_state client_conf addr_a) zero_pbuf tun_in).1.ack.count
      = 0 := by
    rw [tun_cb_ack _ _ _ _ _ hn]; rfl
  have hc2 : (tun_build env0
      (tun_cb env0 client_conf (init_state client_conf addr_a) zero_pbuf tun_in).1
      (tun_cb env0 client_conf (init_state client_conf addr_a) zero_pbuf tun_in).2
      tun_in).chksum = 9 := by
    rw [tun_build_chksum, hk]
    simp [env0, digest0, tun_in, memcpy, List.range_succ]
  have h2 : (tun_cb env0 client_conf
      (tun_cb env0 client_conf (init_state client_conf addr_a) zero_pbuf tun_in).1
      (tun_cb env0 client_conf (init_state client_conf addr_a) zero_pbuf tun_in).2
      tun_in).1.unacked =
      Function.update
        (tun_cb env0 client_conf (init_state client_conf addr_a) zero_pbuf tun_in).1.unacked 1
        { send := 1, stime := 0, pbuf := copypkt
            ((tun_cb env0 client_conf (init_state client_conf addr_a) zero_pbuf
              tun_in).1.unacked 1).pbuf
            (tun_build env0
              (tun_cb env0 client_conf (init_state client_conf addr_a) zero_pbuf tun_in).1
              (tun_cb env0 client_conf (init_state client_conf addr_a) zero_pbuf tun_in).2
              tun_in) } := by
    rw [tun_cb_unacked _ _ _ _ _ hn]
    refine tun_record_some _ _ _ 1 (scan_free_first _ _ 1 (by decide) ?_ ?_)
    · rw [h1]; rfl
    · intro j hj
      have : j = 0 := by omega
      rw [this, h1]
      simp
  rw [hrun]
  constructor
  · unfold stores
    rw [h2, Function.update_noteq (by decide), h1, Function.update_same]
    exact ⟨by decide, hc1⟩
  · unfold stores
    rw [h2, Function.update_same]
    exact ⟨by decide, hc2⟩

/-- C4 fails as stated: after `tun_cb` reads the same datagram twice from the initial
state, the slots 0 and 1 of the retransmit table are both in use and both store the
checksum 9. -/
theorem same_datagram_twice_counterexample :
    stores (run env0 client_conf (init_state client_conf addr_a, zero_pbuf)
      [Input.tun tun_in, Input.tun tun_in]).1.unacked 9 0 ∧
    stores (run env0 client_conf (init_state client_conf addr_a, zero_pbuf)
      [Input.tun tun_in, Input.tun tun_in]).1.unacked 9 1 :=
  twice_table_stores

/-- C5 fails as stated: in the table a client has after `tun_cb` read the same datagram
twice, slot 0 is in use and stores checksum 9, and yet `acknowledge(9)` also changes
slot 1. -/
theorem acknowledge_exactly_one_counterexample :
    stores twice_table 9 0 ∧ (acknowledge 9 twice_table 1).send ≠ (twice_table 1).send := by
  obtain ⟨h0, h1⟩ := twice_table_stores
  refine ⟨h0, ?_⟩
  rw [acknowledge_apply, if_pos ⟨by decide, h1⟩]
  exact fun h => h1.1 h.symm

/-! ### The retransmit schedule of one packet under ticks alone (C3) -/

theorem wrap64_small (x : Int) (h1 : -2 ^ 63 ≤ x) (h2 : x < 2 ^ 63) : wrap64 x = x := by
  unfold wrap64
  norm_num at h1 h2 ⊢
  omega

theorem wrap32_small (x : Int) (h1 : -2 ^ 31 ≤ x) (h2 : x < 2 ^ 31) : wrap32 x = x := by
  unfold wrap32
  norm_num at h1 h2 ⊢
  omega

theorem due_ne (now : Int) (u : Unacked) (hd : due now u) : now ≠ u.stime := by
  intro h
  have h2 := hd.2
  rw [h, sub_self] at h2
  exact absurd h2 (by decide)

theorem slot_step_due (now : Int) (u : Unacked) (hd : due now u) :
    (slot_step now u).send = (if wrap32 (u.send + 1) ≥ 4 then 0 else wrap32 (u.send + 1)) ∧
    (slot_step now u).stime = now ∧ slot_copies now u = (wrap32 (u.send + 1)).toNat := by
  unfold slot_step slot_copies
  rw [if_pos hd, if_pos hd]
  exact ⟨rfl, rfl, rfl⟩

theorem slot_step_not_due (now : Int) (u : Unacked) (hd : ¬ due now u) :
    slot_step now u = u ∧ slot_copies now u = 0 := by
  unfold slot_step slot_copies
  rw [if_neg hd, if_neg hd]
  exact ⟨rfl, rfl⟩

theorem update_remote_client (conf : Conf) (s : State) (addr : Nat → Nat) (addrlen : Nat)
    (hmode : conf.mode ≠ Mode.server) : update_remote conf s addr addrlen = s := by
  unfold update_remote
  rw [if_neg hmode]

theorem udp_cb_peer_inv (env : Env) (conf : Conf) (s : State) (inp : UdpIn)
    (hsrc : inp.addrlen ≠ 0) (hinv : peer_inv conf s) :
    peer_inv conf (udp_cb env conf s inp).1 := by
  by_cases hn : inp.n < (PAYLOAD_OFFSET : Int)
  · rw [udp_cb_short env conf s inp hn]; exact hinv
  · have hn2 := not_lt.mp hn
    by_cases hd : (env.crypto_decrypt inp.raw inp.n).1 = 0
    · have hv : valid env inp := ⟨hn2, hd⟩
      by_cases hlen : (plain env inp).len = 0
      · by_cases hmode : conf.mode = Mode.server
        · rw [udp_cb_len_zero env conf s inp hmode hn2 hd hlen]
          unfold peer_inv
          rw [heartbeat_remote, heartbeat_ack]
          exact hinv
        · rw [udp_cb_len_zero_client env conf s inp hmode hv hlen]; exact hinv
      · by_cases hdup : (is_dup s.hash (plain env inp).chksum).1 = true
        · rw [udp_cb_dup env conf s inp hv hlen hdup]; exact hinv
        · have hdup2 : (is_dup s.hash (plain env inp).chksum).1 = false := by simpa using hdup
          by_cases hflag : (plain env inp).flag &&& 2 = 0
          · rw [udp_cb_data env conf s inp hv hlen hdup2 hflag]
            by_cases hmode : conf.mode = Mode.server
            · have hp := (update_remote_server conf (accepted env conf s (plain env inp))
                inp.addr inp.addrlen hmode).1
              unfold peer_inv
              rw [hp]
              exact ⟨fun _ => hsrc, fun _ => hsrc⟩
            · rw [update_remote_client conf _ _ _ hmode]
              have hc : conf.mode = Mode.client := by
                cases hm : conf.mode with
                | client => rfl
                | server => exact absurd hm hmode
              unfold peer_inv
              rw [accepted_remote]
              exact ⟨hinv.1, fun _ => hinv.1 hc⟩
          · rw [udp_cb_bundle env conf s inp hv hlen hdup2 hflag]; exact hinv
    · rw [udp_cb_invalid env conf s inp hn2 hd]; exact hinv

theorem step_peer_inv (env : Env) (conf : Conf) (e : State × Pbuf) (x : Input)
    (hsrc : has_source x) (hinv : peer_inv conf e.1) :
    peer_inv conf (step env conf e x).1 := by
  cases x with
  | tun i =>
    show peer_inv conf (tun_cb env conf e.1 e.2 i).1
    by_cases hn : 0 < i.n
    · unfold peer_inv
      rw [tun_cb_remote, tun_cb_ack env conf e.1 e.2 i hn]
      refine ⟨hinv.1, ?_⟩
      intro hc
      apply hinv.2
      intro h0
      rw [if_neg (not_not.mpr h0)] at hc
      exact hc h0
    · rw [tun_cb_idle env conf e.1 e.2 i (not_lt.mp hn)]; exact hinv
  | udp i => exact udp_cb_peer_inv env conf e.1 i hsrc hinv
  | flush =>
    show peer_inv conf (flushack env conf e.1)
    unfold peer_inv
    rw [flushack_remote, flushack_count]
    exact ⟨hinv.1, fun h => absurd rfl h⟩
  | retrans now =>
    simp only [step]
    obtain ⟨_, h2, h3, _⟩ := retransmit_spec env conf now e.1
    unfold peer_inv
    rw [h2, h3]
    exact hinv
  | keepalive now =>
    show peer_inv conf (heartbeat env conf now e.1)
    unfold peer_inv
    rw [heartbeat_remote, heartbeat_ack]
    exact hinv

/-- In every state reachable from the initial one, on a client whose server address is
resolved and with datagrams that have a source address, the peer is known whenever the ack
queue is not empty. -/
theorem queued_peer_known (env : Env) (conf : Conf) (srv : Remote) (pbuf : Pbuf)
    (l : List Input) (hsrv : srv.addrlen ≠ 0) (hl : ∀ x, x ∈ l → has_source x) :
    peer_inv conf (run env conf (init_state conf srv, pbuf) l).1 := by
  have key : ∀ (l : List Input) (e : State × Pbuf), peer_inv conf e.1 →
      (∀ x, x ∈ l → has_source x) → peer_inv conf (run env conf e l).1 := by
    intro l
    induction l with
    | nil => intro e h _; exact h
    | cons x xs ih =>
      intro e h hl
      have hstep : run env conf e (x :: xs) = run env conf (step env conf e x) xs := by
        simp only [run, List.foldl_cons]
      rw [hstep]
      exact ih _ (step_peer_inv env conf e x (hl x (List.mem_cons_self _ _)) h)
        (fun y hy => hl y (List.mem_cons_of_mem _ hy))
  apply key l _ _ hl
  constructor
  · intro hc
    show (init_state conf srv).remote.addrlen ≠ 0
    unfold init_state
    simp only [hc, if_true]
    exact hsrv
  · intro h
    exact absurd rfl h

/-! ### Dropped datagrams (C11) -/

/-- C11: a datagram shorter than `PAYLOAD_OFFSET`, or one for which `crypto_decrypt`
reports failure, is dropped by `udp_cb`: the ack queue, the retransmit table, the dedup
table and the peer endpoint are unchanged, and the trace gets no `tun_write` and no
`sendto`. -/
theorem udp_cb_drop (env : Env) (conf : Conf) (s : State) (inp : UdpIn)
    (h : inp.n < (PAYLOAD_OFFSET : Int) ∨ (env.crypto_decrypt inp.raw inp.n).1 ≠ 0) :
    (udp_cb env conf s inp).1.ack = s.ack ∧
    (udp_cb env conf s inp).1.unacked = s.unacked ∧
    (udp_cb env conf s inp).1.hash = s.hash ∧
    (udp_cb env conf s inp).1.remote = s.remote ∧
    (udp_cb env conf s inp).1.out = s.out := by
  have hs : (udp_cb env conf s inp).1 = s := by
    by_cases hn : inp.n < (PAYLOAD_OFFSET : Int)
    · exact udp_cb_short env conf s inp hn
    · rcases h with h | h
      · exact absurd h hn
      · exact udp_cb_invalid env conf s inp (not_lt.mp hn) h
  rw [hs]
  exact ⟨rfl, rfl, rfl, rfl, rfl⟩

/-- C11 on a fresh server: a datagram of 5 bytes leaves the trace empty. -/
theorem udp_cb_drop_witness :
    (udp_cb env0 server_conf (init_state server_conf addr_a) short_in).1.out = [] :=
  (udp_cb_drop env0 server_conf (init_state server_conf addr_a) short_in
    (Or.inl (by decide))).2.2.2.2

/-! ### The bounds of the ack queue (C12) -/

theorem udp_cb_ack_cases (env : Env) (conf : Conf) (s : State) (inp : UdpIn) :
    (udp_cb env conf s inp).1.ack = s.ack ∨
    (udp_cb env conf s inp).1.ack = enqueued s.ack (plain env inp).chksum := by
  by_cases hn : inp.n < (PAYLOAD_OFFSET : Int)
  · rw [udp_cb_short env conf s inp hn]; exact Or.inl rfl
  · have hn2 := not_lt.mp hn
    by_cases hd : (env.crypto_decrypt inp.raw inp.n).1 = 0
    · have hv : valid env inp := ⟨hn2, hd⟩
      by_cases hlen : (plain env inp).len = 0
      · by_cases hmode : conf.mode = Mode.server
        · rw [udp_cb_len_zero env conf s inp hmode hn2 hd hlen, heartbeat_ack]
          exact Or.inl rfl
        · rw [udp_cb_len_zero_client env conf s inp hmode hv hlen]; exact Or.inl rfl
      · by_cases hdup : (is_dup s.hash (plain env inp).chksum).1 = true
        · rw [udp_cb_dup env conf s inp hv hlen hdup]; exact Or.inl rfl
        · have hdup2 : (is_dup s.hash (plain env inp).chksum).1 = false := by simpa using hdup
          by_cases hflag : (plain env inp).flag &&& 2 = 0
          · rw [udp_cb_data env conf s inp hv hlen hdup2 hflag,
              (update_remote_rest conf _ _ _).1, accepted_ack]
            exact Or.inr rfl
          · rw [udp_cb_bundle env conf s inp hv hlen hdup2 hflag]; exact Or.inl rfl
    · rw [udp_cb_invalid env conf s inp hn2 hd]; exact Or.inl rfl

theorem enqueued_count_ok (a : Ack) (c : Nat) (h : count_ok a) : count_ok (enqueued a c) := by
  unfold count_ok enqueued at *
  simp only [ACK_LEN] at *
  split_ifs <;> omega

theorem step_count_ok (env : Env) (conf : Conf) (e : State × Pbuf) (x : Input)
    (h : count_ok e.1.ack) : count_ok (step env conf e x).1.ack := by
  cases x with
  | tun i =>
    show count_ok (tun_cb env conf e.1 e.2 i).1.ack
    by_cases hn : 0 < i.n
    · rw [tun_cb_ack env conf e.1 e.2 i hn]
      unfold count_ok at *
      split_ifs with h0
      · show 0 ≤ e.1.ack.count - 1 ∧ e.1.ack.count - 1 ≤ (ACK_LEN : Int)
        omega
      · exact h
    · rw [tun_cb_idle env conf e.1 e.2 i (not_lt.mp hn)]; exact h
  | udp i =>
    show count_ok (udp_cb env conf e.1 i).1.ack
    rcases udp_cb_ack_cases env conf e.1 i with h1 | h1
    · rw [h1]; exact h
    · rw [h1]; exact enqueued_count_ok _ _ h
  | flush =>
    show count_ok (flushack env conf e.1).ack
    unfold count_ok
    rw [flushack_count]
    simp [ACK_LEN]
  | retrans now =>
    simp only [step]
    rw [(retransmit_spec env conf now e.1).2.2.1]
    exact h
  | keepalive now =>
    show count_ok (heartbeat env conf now e.1).ack
    rw [heartbeat_ack]; exact h

/-- C12: in every state reachable from the initial state through `tun_cb`, `udp_cb`,
`flushack`, `retransmit` and `heartbeat`, `0 ≤ ack.count ≤ 256`; so the index
`ack.count - 1` that `tun_cb` reads when the count is not 0 and the index that `udp_cb`
writes, `ack.count` after the flush of a full queue, both lie in `0..255`. -/
theorem ack_count_bounded (env : Env) (conf : Conf) (srv : Remote) (pbuf : Pbuf)
    (l : List Input) :
    0 ≤ (run env conf (init_state conf srv, pbuf) l).1.ack.count ∧
    (run env conf (init_state conf srv, pbuf) l).1.ack.count ≤ 256 ∧
    ((run env conf (init_state conf srv, pbuf) l).1.ack.count ≠ 0 →
      0 ≤ (run env conf (init_state conf srv, pbuf) l).1.ack.count - 1 ∧
      (run env conf (init_state conf srv, pbuf) l).1.ack.count - 1 < 256) ∧
    0 ≤ write_index (run env conf (init_state conf srv, pbuf) l).1.ack ∧
    write_index (run env conf (init_state conf srv, pbuf) l).1.ack < 256 := by
  have key : ∀ (l : List Input) (e : State × Pbuf), count_ok e.1.ack →
      count_ok (run env conf e l).1.ack := by
    intro l
    induction l with
    | nil => intro e h; exact h
    | cons x xs ih =>
      intro e h
      have hstep : run env conf e (x :: xs) = run env conf (step env conf e x) xs := by
        simp only [run, List.foldl_cons]
      rw [hstep]
      exact ih _ (step_count_ok env conf e x h)
  have h0 : count_ok (init_state conf srv, pbuf).1.ack := by
    unfold count_ok init_state
    simp [ACK_LEN]
  have h := key l _ h0
  unfold count_ok at h
  unfold write_index
  simp only [ACK_LEN] at h ⊢
  split_ifs <;> omega
/-! ### The copies `tun_cb` sends and the slot it records (C13, C14) -/

/-- C13: for every datagram read from tun (`n > 0`) with a known peer, the events of
`tun_cb` are exactly three `sendto` when `conf.duplicate` is set and exactly one when it
is not, and each sends a packet with the `chksum`, `ack`, `flag`, `len` and
`payload[0..len)` of the packet built from the read. -/
theorem tun_cb_copies (env : Env) (conf : Conf) (s : State) (pbuf : Pbuf) (inp : TunIn)
    (hn : 0 < inp.n) (hp : s.remote.addrlen ≠ 0) :
    ∃ es, (tun_cb env conf s pbuf inp).1.out = s.out ++ es ∧
      tun_write_count es = 0 ∧
      es.length = (if conf.duplicate then 3 else 1) ∧
      (sent es).length = (if conf.duplicate then 3 else 1) ∧
      ∀ q, q ∈ sent es → same_pkt q (tun_build env s pbuf inp) := by
  obtain ⟨es, o1, o2, o3, o4⟩ := tun_cb_out env conf s pbuf inp hn
  rw [if_pos hp] at o4
  have hl := sent_length es
  rw [o3, Nat.add_zero] at hl
  exact ⟨es, o1, o3, o4, hl.trans o4, o2⟩

/-- C13 on a client with triplication: one read from tun gives three `sendto`. -/
theorem tun_cb_copies_witness :
    ∃ es, (tun_cb env0 client_conf_dup (init_state client_conf_dup addr_a) zero_pbuf
        tun_in).1.out = (init_state client_conf_dup addr_a).out ++ es ∧
      tun_write_count es = 0 ∧
      es.length = 3 ∧ (sent es).length = 3 ∧
      ∀ q, q ∈ sent es → same_pkt q
        (tun_build env0 (init_state client_conf_dup addr_a) zero_pbuf tun_in) :=
  tun_cb_copies env0 client_conf_dup (init_state client_conf_dup addr_a) zero_pbuf tun_in
    (by decide) (by decide)

/-- C14: when `tun_cb` reads a datagram while every slot of the retransmit table is in
use, the table is unchanged and the packet is still sent (one `sendto` at least when the
peer is known); when some slot is free, exactly the free slot of lowest index changes: it
gets `send = 1`, `stime = now` and a packet with the `chksum`, `ack`, `flag`, `len` and
`payload[0..len)` of the packet built. -/
theorem tun_cb_record (env : Env) (conf : Conf) (s : State) (pbuf : Pbuf) (inp : TunIn)
    (hn : 0 < inp.n) :
    ((∀ j, j < UNACKED_LEN → (s.unacked j).send ≠ 0) →
      (tun_cb env conf s pbuf inp).1.unacked = s.unacked ∧
      ∃ es, (tun_cb env conf s pbuf inp).1.out = s.out ++ es ∧
        (∀ q, q ∈ sent es → same_pkt q (tun_build env s pbuf inp)) ∧
        (sent es).length =
          if s.remote.addrlen ≠ 0 then (if conf.duplicate then 3 else 1) else 0) ∧
    (∀ i, i < UNACKED_LEN → (s.unacked i).send = 0 →
      (∀ j, j < i → (s.unacked j).send ≠ 0) →
      (∀ j, j ≠ i → (tun_cb env conf s pbuf inp).1.unacked j = s.unacked j) ∧
      (tun_cb env conf s pbuf inp).1.unacked i ≠ s.unacked i ∧
      ((tun_cb env conf s pbuf inp).1.unacked i).send = 1 ∧
      ((tun_cb env conf s pbuf inp).1.unacked i).stime = inp.now ∧
      same_pkt ((tun_cb env conf s pbuf inp).1.unacked i).pbuf (tun_build env s pbuf inp)) := by
  constructor
  · intro hfull
    have hnone := (scan_free_none s.unacked UNACKED_LEN).mpr hfull
    refine ⟨?_, ?_⟩
    · rw [tun_cb_unacked env conf s pbuf inp hn, tun_record_none s inp.now _ hnone]
    · obtain ⟨es, o1, o2, o3, o4⟩ := tun_cb_out env conf s pbuf inp hn
      have hl := sent_length es
      rw [o3, Nat.add_zero] at hl
      exact ⟨es, o1, o2, hl.trans o4⟩
  · intro i hi h0 hb
    have hsome := scan_free_first s.unacked UNACKED_LEN i hi h0 hb
    have hun : (tun_cb env conf s pbuf inp).1.unacked = Function.update s.unacked i
        { send := 1, stime := inp.now,
          pbuf := copypkt (s.unacked i).pbuf (tun_build env s pbuf inp) } := by
      rw [tun_cb_unacked env conf s pbuf inp hn]
      exact tun_record_some s inp.now _ i hsome
    rw [hun]
    refine ⟨fun j hj => Function.update_noteq hj _ _, ?_, ?_, ?_, ?_⟩
    · rw [Function.update_same]
      intro heq
      have : (1 : Int) = (s.unacked i).send := congrArg Unacked.send heq
      rw [h0] at this
      exact absurd this (by norm_num)
    · rw [Function.update_same]
    · rw [Function.update_same]
    · rw [Function.update_same]
      exact copypkt_same _ _

/-- C14 on the initial table of a client: slot 0 is the free slot of lowest index and
gets `send = 1` after one read from tun. -/
theorem tun_cb_record_witness :
    ((tun_cb env0 client_conf (init_state client_conf addr_a) zero_pbuf tun_in).1.unacked 0).send
      = 1 :=
  ((tun_cb_record env0 client_conf (init_state client_conf addr_a) zero_pbuf tun_in
    (by decide)).2 0 (by decide) rfl (fun j hj => absurd hj (Nat.not_lt_zero j))).2.2.1
/-! ### One call of `retransmit`, slot by slot, and the range of the send counts (C15) -/

theorem gather_congr (f g : Nat → List Event) (n : Nat) (h : ∀ i, i < n → f i = g i) :
    gather f n = gather g n := by
  induction n with
  | zero => rfl
  | succ n ih =>
    rw [gather, gather, ih (fun i hi => h i (by omega)), h n (by omega)]

theorem retransmit_loop_slots (env : Env) (conf : Conf) (now : Int) (s : State) (n : Nat) :
    ∃ ess : Nat → List Event,
      (forLoop n (retransmit_body env conf now) s).out = s.out ++ gather ess n ∧
      ∀ i, i < n → tun_write_count (ess i) = 0 ∧
        (∀ q, q ∈ sent (ess i) → same_pkt q (s.unacked i).pbuf) ∧
        (ess i).length =
          if s.remote.addrlen ≠ 0 then slot_copies now (s.unacked i) else 0 := by
  induction n with
  | zero => exact ⟨fun _ => [], by simp [forLoop, gather], fun i hi => absurd hi (by omega)⟩
  | succ n ih =>
    obtain ⟨ess, h1, h2⟩ := ih
    obtain ⟨l1, l2, _, _, _⟩ := retransmit_loop env conf now s n
    obtain ⟨_, _, _, _, eb, b5, b6, b7, b8⟩ := retransmit_body_spec env conf now n
      (forLoop n (retransmit_body env conf now) s)
    have hn : (forLoop n (retransmit_body env conf now) s).unacked n = s.unacked n := by
      rw [l1]; simp
    rw [hn] at b6 b8
    rw [l2] at b8
    refine ⟨fun i => if i = n then eb else ess i, ?_, ?_⟩
    · rw [forLoop, b5, h1, gather, List.append_assoc]
      congr 2
      · exact gather_congr _ _ n (fun i hi => by simp [Nat.ne_of_lt hi])
      · simp
    · intro i hi
      by_cases hin : i = n
      · subst hin
        simp only [if_true]
        exact ⟨b7, b6, b8⟩
      · simp only [if_neg hin]
        exact h2 i (by omega)

theorem slot_step_send_ok (now : Int) (u : Unacked) (h : 0 ≤ u.send ∧ u.send ≤ 3) :
    0 ≤ (slot_step now u).send ∧ (slot_step now u).send ≤ 3 := by
  unfold slot_step
  split_ifs with hd h4
  · exact ⟨le_refl _, by norm_num⟩
  · have hw : wrap32 (u.send + 1) = u.send + 1 :=
      wrap32_small _ (by norm_num; omega) (by norm_num; omega)
    rw [hw] at h4
    show 0 ≤ wrap32 (u.send + 1) ∧ wrap32 (u.send + 1) ≤ 3
    rw [hw]
    omega
  · exact h

theorem acknowledge_send_ok (c : Nat) (t : Nat → Unacked) (h : send_ok t) :
    send_ok (acknowledge c t) := by
  intro i
  rw [acknowledge_apply]
  split_ifs
  · exact ⟨le_refl _, by show (0 : Int) ≤ 3; norm_num⟩
  · exact h i

theorem acknowledge_loop_send_ok (f : Nat → Nat) (m : Nat) (t : Nat → Unacked)
    (h : send_ok t) : send_ok (forLoop m (fun i t => acknowledge (f i) t) t) := by
  induction m with
  | zero => exact h
  | succ m ih =>
    rw [forLoop]
    exact acknowledge_send_ok (f m) (forLoop m (fun i t => acknowledge (f i) t) t) ih

theorem retransmit_send_ok (env : Env) (conf : Conf) (now : Int) (s : State)
    (h : send_ok s.unacked) : send_ok (retransmit env conf now s).unacked := by
  intro i
  rw [(retransmit_spec env conf now s).1]
  simp only
  split_ifs
  · exact slot_step_send_ok now _ (h i)
  · exact h i

theorem udp_cb_send_ok (env : Env) (conf : Conf) (s : State) (inp : UdpIn)
    (h : send_ok s.unacked) : send_ok (udp_cb env conf s inp).1.unacked := by
  by_cases hn : inp.n < (PAYLOAD_OFFSET : Int)
  · rw [udp_cb_short env conf s inp hn]; exact h
  · have hn2 := not_lt.mp hn
    by_cases hd : (env.crypto_decrypt inp.raw inp.n).1 = 0
    · have hv : valid env inp := ⟨hn2, hd⟩
      by_cases hlen : (plain env inp).len = 0
      · by_cases hmode : conf.mode = Mode.server
        · rw [udp_cb_len_zero env conf s inp hmode hn2 hd hlen, heartbeat_unacked]
          exact h
        · rw [udp_cb_len_zero_client env conf s inp hmode hv hlen]; exact h
      · by_cases hdup : (is_dup s.hash (plain env inp).chksum).1 = true
        · rw [udp_cb_dup env conf s inp hv hlen hdup]; exact h
        · have hdup2 : (is_dup s.hash (plain env inp).chksum).1 = false := by simpa using hdup
          by_cases hflag : (plain env inp).flag &&& 2 = 0
          · rw [udp_cb_data env conf s inp hv hlen hdup2 hflag,
              (update_remote_rest conf _ _ _).2.1, accepted_unacked]
            split_ifs
            · exact acknowledge_send_ok _ _ h
            · exact h
          · rw [udp_cb_bundle env conf s inp hv hlen hdup2 hflag]
            exact acknowledge_loop_send_ok _ _ _ h
    · rw [udp_cb_invalid env conf s inp hn2 hd]; exact h

theorem tun_record_send_ok (s : State) (now : Int) (b : Pbuf) (h : send_ok s.unacked) :
    send_ok (tun_record s now b).unacked := by
  cases hs : scan_free s.unacked UNACKED_LEN with
  | none => rw [tun_record_none s now b hs]; exact h
  | some k =>
    rw [tun_record_some s now b k hs]
    intro i
    by_cases hik : i = k
    · rw [hik, Function.update_same]
      exact ⟨by norm_num, by norm_num⟩
    · rw [Function.update_noteq hik]; exact h i

theorem step_send_ok (env : Env) (conf : Conf) (e : State × Pbuf) (x : Input)
    (h : send_ok e.1.unacked) : send_ok (step env conf e x).1.unacked := by
  cases x with
  | tun i =>
    show send_ok (tun_cb env conf e.1 e.2 i).1.unacked
    by_cases hn : 0 < i.n
    · rw [tun_cb_unacked env conf e.1 e.2 i hn]
      exact tun_record_send_ok e.1 i.now _ h
    · rw [tun_cb_idle env conf e.1 e.2 i (not_lt.mp hn)]; exact h
  | udp i => exact udp_cb_send_ok env conf e.1 i h
  | flush =>
    show send_ok (flushack env conf e.1).unacked
    rw [flushack_unacked]; exact h
  | retrans now => exact retransmit_send_ok env conf now e.1 h
  | keepalive now =>
    show send_ok (heartbeat env conf now e.1).unacked
    rw [heartbeat_unacked]; exact h

theorem run_send_ok (env : Env) (conf : Conf) (l : List Input) (e : State × Pbuf)
    (h : send_ok e.1.unacked) : send_ok (run env conf e l).1.unacked := by
  induction l generalizing e with
  | nil => exact h
  | cons x xs ih =>
    have hstep : run env conf e (x :: xs) = run env conf (step env conf e x) xs := by
      simp only [run, List.foldl_cons]
    rw [hstep]
    exact ih _ (step_send_ok env conf e x h)

theorem retransmit_at (env : Env) (conf : Conf) (t : Int) (s : State) (i : Nat)
    (hi : i < UNACKED_LEN) :
    (retransmit env conf t s).unacked i = slot_step t (s.unacked i) := by
  rw [(retransmit_spec env conf t s).1]
  simp only [hi, if_true]

/-- C15, as the code has it: one call of `retransmit` at time `now` changes a slot exactly
when the slot is in use and the difference `now - stime`, computed in a 64-bit `long`, is
more than 200; whenever `now - stime` fits in a `long` that is the claim's `now - stime >
200`. Such a slot gets `stime = now` and keeps its packet; with send count `s`,
`1 ≤ s ≤ 3`, it gets `send = s + 1` if `s + 1 < 4` and `send = 0` otherwise, and `s + 1`
packets with the fields of the stored packet are sent for it (the peer being known); for
any other slot nothing is sent. And in every state reachable from the initial one every
send count lies in `0..3`. -/
theorem retransmit_per_slot (env : Env) (conf : Conf) :
    (∀ (now : Int) (s : State),
      (∀ i, i < UNACKED_LEN →
        ((retransmit env conf now s).unacked i ≠ s.unacked i ↔
          (s.unacked i).send ≠ 0 ∧ wrap64 (now - (s.unacked i).stime) > 200) ∧
        (-2 ^ 63 ≤ now - (s.unacked i).stime → now - (s.unacked i).stime < 2 ^ 63 →
          ((retransmit env conf now s).unacked i ≠ s.unacked i ↔
            (s.unacked i).send ≠ 0 ∧ now - (s.unacked i).stime > 200)) ∧
        (due now (s.unacked i) →
          ((retransmit env conf now s).unacked i).stime = now ∧
          ((retransmit env conf now s).unacked i).pbuf = (s.unacked i).pbuf ∧
          (1 ≤ (s.unacked i).send → (s.unacked i).send ≤ 3 →
            ((retransmit env conf now s).unacked i).send =
              (if (s.unacked i).send + 1 < 4 then (s.unacked i).send + 1 else 0)))) ∧
      ∃ ess : Nat → List Event,
        (retransmit env conf now s).out = s.out ++ gather ess UNACKED_LEN ∧
        ∀ i, i < UNACKED_LEN →
          tun_write_count (ess i) = 0 ∧
          (∀ q, q ∈ sent (ess i) → same_pkt q (s.unacked i).pbuf) ∧
          (due now (s.unacked i) → 1 ≤ (s.unacked i).send → (s.unacked i).send ≤ 3 →
            s.remote.addrlen ≠ 0 → (ess i).length = ((s.unacked i).send + 1).toNat) ∧
          (¬ due now (s.unacked i) → ess i = [])) ∧
    (∀ (srv : Remote) (pbuf : Pbuf) (l : List Input) (i : Nat),
      0 ≤ ((run env conf (init_state conf srv, pbuf) l).1.unacked i).send ∧
      ((run env conf (init_state conf srv, pbuf) l).1.unacked i).send ≤ 3) := by
  constructor
  · intro now s
    constructor
    · intro i hi
      have hu : (retransmit env conf now s).unacked i = slot_step now (s.unacked i) :=
        retransmit_at env conf now s i hi
      have hiff : (retransmit env conf now s).unacked i ≠ s.unacked i ↔
          due now (s.unacked i) := by
        rw [hu]
        constructor
        · intro hne
          by_contra hd
          exact hne (slot_step_not_due now _ hd).1
        · intro hd heq
          have h1 := (slot_step_due now _ hd).2.1
          rw [heq] at h1
          exact due_ne now _ hd h1.symm
      refine ⟨hiff, ?_, ?_⟩
      · intro h1 h2
        rw [hiff]
        unfold due
        rw [wrap64_small _ h1 h2]
      · intro hd
        obtain ⟨e1, e2, _⟩ := slot_step_due now _ hd
        rw [hu]
        refine ⟨e2, slot_step_pbuf now _, ?_⟩
        intro hk1 hk3
        rw [e1, wrap32_small _ (by norm_num; omega) (by norm_num; omega)]
        split_ifs <;> omega
    · obtain ⟨ess, h1, h2⟩ := retransmit_loop_slots env conf now s UNACKED_LEN
      refine ⟨ess, h1, ?_⟩
      intro i hi
      obtain ⟨a, b, c⟩ := h2 i hi
      refine ⟨a, b, ?_, ?_⟩
      · intro hd hk1 hk3 hp
        rw [c, if_pos hp, (slot_step_due now _ hd).2.2,
          wrap32_small _ (by norm_num; omega) (by norm_num; omega)]
      · intro hd
        apply List.length_eq_zero.mp
        rw [c, (slot_step_not_due now _ hd).2]
        split_ifs <;> rfl
  · intro srv pbuf l i
    exact run_send_ok env conf l (init_state conf srv, pbuf)
      (fun _ => ⟨le_refl _, by show (0 : Int) ≤ 3; norm_num⟩) i

/-- The amended C15 on a table whose slot 0 has been sent twice, last at time 0: the call
of `retransmit` at time 300 sets its send count to 3. -/
theorem retransmit_per_slot_witness :
    ((retransmit env0 client_conf 300
      { init_state client_conf addr_a with unacked := due_table }).unacked 0).send = 3 :=
  ((((retransmit_per_slot env0 client_conf).1 300
    { init_state client_conf addr_a with unacked := due_table }).1 0 (by decide)).2.2
      (by decide)).2.2 (by decide) (by decide)

/-- C15 fails as stated: slot 0 of the table is in use with the timestamp `LONG_MIN + 10`,
a value of a `long`, and at time 1000 `now - stime` is more than 200; yet the call of
`retransmit` at time 1000 leaves the slot as it was, because the difference does not fit
in the `long diff` and the code sees a negative number. -/
theorem retransmit_overflow_counterexample :
    (overflow_table 0).send ≠ 0 ∧
    -2 ^ 63 ≤ (overflow_table 0).stime ∧ (overflow_table 0).stime < 2 ^ 63 ∧
    (1000 : Int) - (overflow_table 0).stime > 200 ∧
    (retransmit env0 client_conf 1000
      { init_state client_conf addr_a with unacked := overflow_table }).unacked 0 =
      overflow_table 0 := by
  refine ⟨by decide, by decide, by decide, by decide, ?_⟩
  rw [retransmit_at env0 client_conf 1000 _ 0 (by decide)]
  exact (slot_step_not_due 1000 _ (by decide)).1

/-! ### One call of `is_dup` (C16) -/

/-- C16: with `b = c mod 1021`, `is_dup(c)` returns true exactly when slot 0 or slot 1 of
bucket `b` holds `c` before the call; after the call slot 0 of bucket `b` holds `c`, slot 1
of bucket `b` holds the old slot 0, and every other bucket is as it was. -/
theorem is_dup_bucket (hash : Nat → Nat → Nat) (c : Nat) :
    ((is_dup hash c).1 = true ↔ hash (c % DUP_LEN) 0 = c ∨ hash (c % DUP_LEN) 1 = c) ∧
    (is_dup hash c).2 (c % DUP_LEN) 0 = c ∧
    (is_dup hash c).2 (c % DUP_LEN) 1 = hash (c % DUP_LEN) 0 ∧
    ∀ b, b ≠ c % DUP_LEN → (is_dup hash c).2 b = hash b := by
  refine ⟨?_, ?_, ?_, ?_⟩
  · simp only [is_dup, Bool.or_eq_true, decide_eq_true_eq]
  · simp [is_dup, set2, Function.update]
  · simp [is_dup, set2, Function.update]
  · intro b hb
    simp [is_dup, set2, Function.update, hb]

/-- C16 on the initial table: `is_dup(5)` leaves bucket 3 as it was. -/
theorem is_dup_bucket_witness : (is_dup init_hash 5).2 3 = init_hash 3 :=
  (is_dup_bucket init_hash 5).2.2.2 3 (by decide)

/-! ### The bundle of `flushack` (C17) -/

theorem ack_bundle_fields (env : Env) (s : State) (k : Nat) (hk : s.ack.count = (k : Int))
    (hk2 : k ≤ 256) :
    (ack_bundle env s).flag = 2 ∧ (ack_bundle env s).len = 4 * k := by
  unfold ack_bundle crypto_hash
  refine ⟨rfl, ?_⟩
  show (s.ack.count * 4 % 65536).toNat = 4 * k
  rw [hk]; omega

theorem flushack_calls (env : Env) (conf : Conf) (s : State) (hc : s.ack.count ≠ 0) :
    flushack env conf s =
      { (sendpkt env conf (sendpkt env conf s (copypkt env.uninit (ack_bundle env s))).1
          (ack_bundle env s)).1 with
        ack := { count := 0, ack := s.ack.ack } } := by
  unfold flushack ack_bundle
  rw [if_pos hc]
  simp only [sendpkt_ack]

/-- C17: with `count = k` and `0 < k ≤ 256`, `flushack` builds one packet with flag
`0x0002`, `len = 4 * k` and the `k` queued checksums in queue order as payload, and calls
`sendpkt` exactly twice, on a copy of it and on the packet itself, whatever
`conf.duplicate` is: with a known peer that is two `sendto` of packets with its fields;
with `k = 0` it sends nothing; in both cases the count is 0 afterwards. -/
theorem flushack_bundle (env : Env) (conf : Conf) (s : State) (k : Nat)
    (hk : s.ack.count = (k : Int)) (hk2 : k ≤ 256) :
    (flushack env conf s).ack.count = 0 ∧
    (0 < k →
      (ack_bundle env s).flag = 2 ∧ (ack_bundle env s).len = 4 * k ∧
      is_bundle_of (ack_bundle env s) s.ack.ack k ∧
      flushack env conf s =
        { (sendpkt env conf (sendpkt env conf s (copypkt env.uninit (ack_bundle env s))).1
            (ack_bundle env s)).1 with
          ack := { count := 0, ack := s.ack.ack } } ∧
      (s.remote.addrlen ≠ 0 →
        ∃ q1 n1 q2 n2, (flushack env conf s).out =
            s.out ++ [Event.sendto q1 n1 s.remote.addr s.remote.addrlen,
              Event.sendto q2 n2 s.remote.addr s.remote.addrlen] ∧
          same_pkt q1 (ack_bundle env s) ∧ same_pkt q2 (ack_bundle env s) ∧
          is_bundle_of q1 s.ack.ack k ∧ is_bundle_of q2 s.ack.ack k)) ∧
    (k = 0 → (flushack env conf s).out = s.out) := by
  refine ⟨flushack_count env conf s, ?_, ?_⟩
  · intro hpos
    have hk3 : 4 * k < 65536 := by omega
    have hself : same_pkt (ack_bundle env s) (ack_bundle env s) :=
      ⟨rfl, rfl, rfl, rfl, fun _ _ => rfl⟩
    obtain ⟨f1, f2⟩ := ack_bundle_fields env s k hk hk2
    have hc : s.ack.count ≠ 0 := by rw [hk]; omega
    refine ⟨f1, f2, ack_bundle_is_bundle env s k hk hk3 _ hself,
      flushack_calls env conf s hc, ?_⟩
    intro hp
    obtain ⟨q1, n1, q2, n2, e, s1, s2⟩ := flushack_out_known env conf s hc hp
    exact ⟨q1, n1, q2, n2, e, s1, s2, ack_bundle_is_bundle env s k hk hk3 q1 s1,
      ack_bundle_is_bundle env s k hk hk3 q2 s2⟩
  · intro h0
    apply flushack_out_empty
    rw [hk, h0]; rfl

/-- C17 on a queue holding 10 and 11: the packet built has `len = 8`. -/
theorem flushack_bundle_witness : (ack_bundle env0 two_acks).len = 4 * 2 :=
  ((flushack_bundle env0 client_conf two_acks 2 rfl (by decide)).2.1 (by decide)).2.1
/-! ### What `obfuscate` leaves alone, and the wire length (C18, C19) -/

theorem forLoop_update_outside (k : Nat) (base : Nat) (v : Nat → Nat) (pl : Nat → Nat)
    (i : Nat) (hi : i < base ∨ base + k ≤ i) :
    forLoop k (fun j pl => Function.update pl (base + j) (v j)) pl i = pl i := by
  induction k with
  | zero => rfl
  | succ k ih =>
    rw [forLoop]
    have hne : i ≠ base + k := by omega
    rw [Function.update_noteq hne]
    exact ih (by omega)

theorem obfuscate_padding_nonneg (conf : Conf) (draw : Nat → Nat) (p : Pbuf) :
    0 ≤ (obfuscate conf draw p).1.padding := by
  rw [obfuscate_padding]
  split_ifs with h
  · have hr := pad_len_range conf.mtu p.len (draw 8) h
    unfold pad_range at hr
    split_ifs at hr <;> omega
  · exact le_refl _

/-- C18: `obfuscate` leaves `chksum`, `ack`, `flag` and `len` as they are and changes no
payload byte outside the indices `len .. len + padding - 1`; only the nonce, the padding
length and those bytes can differ. So the packet `sendpkt` sends for a copy of a packet
made by `copypkt`, as for every resend and duplicate, has the `chksum` of the original. -/
theorem obfuscate_frame (conf : Conf) (draw : Nat → Nat) (p : Pbuf) :
    (obfuscate conf draw p).1.chksum = p.chksum ∧
    (obfuscate conf draw p).1.ack = p.ack ∧
    (obfuscate conf draw p).1.flag = p.flag ∧
    (obfuscate conf draw p).1.len = p.len ∧
    (∀ i : Nat, ((i : Int) < p.len ∨ (p.len : Int) + (obfuscate conf draw p).1.padding ≤ i) →
      (obfuscate conf draw p).1.payload i = p.payload i) ∧
    (∀ dest : Pbuf, (obfuscate conf draw (copypkt dest p)).1.chksum = p.chksum) ∧
    (∀ (env : Env) (s : State) (dest : Pbuf),
      (wire env conf s (copypkt dest p)).chksum = p.chksum) := by
  have hpad := obfuscate_padding conf draw p
  have hnn := obfuscate_padding_nonneg conf draw p
  refine ⟨?_, ?_, ?_, ?_, ?_, ?_, ?_⟩
  · exact (obfuscate_same conf draw p).1
  · exact (obfuscate_same conf draw p).2.1
  · exact (obfuscate_same conf draw p).2.2.1
  · exact (obfuscate_same conf draw p).2.2.2.1
  · intro i hi
    by_cases h : (p.len : Int) < conf.mtu
    · rw [if_pos h] at hpad
      rw [hpad] at hi hnn
      unfold obfuscate
      simp only
      rw [if_pos h]
      simp only
      apply forLoop_update_outside
      rcases hi with hi | hi
      · exact Or.inl (by omega)
      · exact Or.inr (by omega)
    · unfold obfuscate
      simp only
      rw [if_neg h]
  · intro dest
    exact (obfuscate_same conf draw (copypkt dest p)).1
  · intro env s dest
    exact (wire_same env conf s (copypkt dest p)).1

/-- C19: for a packet with `len ≤ MTU`, the padding chosen by `obfuscate` satisfies
`0 ≤ padding` and `len + padding ≤ MTU` for every result of `rand()`, and the length
`PAYLOAD_OFFSET + len + padding` that `sendpkt` hands to `sendto` is at most
`PAYLOAD_OFFSET + MTU`. -/
theorem obfuscate_within_mtu (conf : Conf) (p : Pbuf) (h : (p.len : Int) ≤ conf.mtu) :
    (∀ draw : Nat → Nat,
      0 ≤ (obfuscate conf draw p).1.padding ∧
      (p.len : Int) + (obfuscate conf draw p).1.padding ≤ conf.mtu) ∧
    (∀ (env : Env) (s : State), s.remote.addrlen ≠ 0 →
      ∃ q n, (sendpkt env conf s p).1.out =
          s.out ++ [Event.sendto q n s.remote.addr s.remote.addrlen] ∧
        n = (PAYLOAD_OFFSET : Int) + (q.len : Int) + q.padding ∧
        n ≤ (PAYLOAD_OFFSET : Int) + conf.mtu) := by
  have hb : ∀ draw : Nat → Nat,
      0 ≤ (obfuscate conf draw p).1.padding ∧
      (p.len : Int) + (obfuscate conf draw p).1.padding ≤ conf.mtu := by
    intro draw
    refine ⟨obfuscate_padding_nonneg conf draw p, ?_⟩
    rw [obfuscate_padding]
    split_ifs with hlt
    · have hr := pad_len_range conf.mtu p.len (draw 8) hlt
      unfold pad_range at hr
      split_ifs at hr <;> omega
    · omega
  refine ⟨hb, ?_⟩
  intro env s hp
  rw [sendpkt_out, if_pos hp]
  refine ⟨_, _, rfl, rfl, ?_⟩
  have h1 := (hb (fun k => env.rand s.seed (s.pos + k))).2
  have h2 : (wire env conf s p).len = p.len := (wire_same env conf s p).2.2.2.1
  rw [h2]
  unfold wire
  omega

/-- C19 for a packet of 1300 bytes with MTU 1400 and `rand()` returning 150: the padding
is at most 100. -/
theorem obfuscate_within_mtu_witness :
    ((1300 : Nat) : Int) +
      (obfuscate client_conf (fun _ => 150) { zero_pbuf with len := 1300 }).1.padding ≤ 1400 :=
  ((obfuscate_within_mtu client_conf { zero_pbuf with len := 1300 } (by decide)).1
    (fun _ => 150)).2

/-! ### The first call of `is_dup` (C20) -/

/-- C20: on the initial, zero-initialised dedup table the first call `is_dup(c)` returns
false for every `c ≠ 0` and true for `c = 0`; so a valid data packet whose keyed hash is 0,
arriving while the table is still the initial one, is treated by `udp_cb` as a duplicate:
nothing is written to tun or sent, and the ack queue is unchanged. -/
theorem first_is_dup_zero :
    (∀ c : Nat, c ≠ 0 → (is_dup init_hash c).1 = false) ∧
    (is_dup init_hash 0).1 = true ∧
    (∀ (env : Env) (conf : Conf) (s : State) (inp : UdpIn),
      s.hash = init_hash → valid env inp → (plain env inp).len ≠ 0 →
      (plain env inp).chksum = 0 →
      (udp_cb env conf s inp).1.out = s.out ∧ (udp_cb env conf s inp).1.ack = s.ack ∧
      (udp_cb env conf s inp).1.unacked = s.unacked ∧
      (udp_cb env conf s inp).1.remote = s.remote) := by
  refine ⟨?_, ?_, ?_⟩
  · intro c hc
    have h : ¬ (is_dup init_hash c).1 = true := by
      rw [is_dup_fst]
      simp only [init_hash, List.mem_cons, List.mem_singleton, List.not_mem_nil, or_false,
        or_self]
      exact hc
    simpa using h
  · rw [is_dup_fst]
    simp [init_hash]
  · intro env conf s inp hh hv hlen hz
    have hdup : (is_dup s.hash (plain env inp).chksum).1 = true := by
      rw [hh, hz, is_dup_fst]
      simp [init_hash]
    rw [udp_cb_dup env conf s inp hv hlen hdup]
    exact ⟨rfl, rfl, rfl, rfl⟩

/-- C20 on a fresh server: the data datagram whose keyed hash is 0 leaves the trace
empty. -/
theorem first_is_dup_zero_witness :
    (udp_cb env0 server_conf (init_state server_conf addr_a) zero_hash_in).1.out =
      (init_state server_conf addr_a).out :=
  (first_is_dup_zero.2.2 env0 server_conf (init_state server_conf addr_a) zero_hash_in rfl
    (by decide) (by decide) (by decide)).1

/-! ### One recorded packet along a run of the loop (C3) -/

theorem acknowledge_other (a c : Nat) (t : Nat → Unacked) (i : Nat) (hs : stores t c i)
    (hne : a ≠ c) : acknowledge a t i = t i := by
  rw [acknowledge_apply, if_neg]
  intro h
  exact hne (h.2.2.symm.trans hs.2)

theorem acknowledge_loop_other (f : Nat → Nat) (c : Nat) (i : Nat) (m : Nat)
    (t : Nat → Unacked) (hs : stores t c i) (hne : ∀ k, k < m → f k ≠ c) :
    forLoop m (fun k t => acknowledge (f k) t) t i = t i := by
  induction m with
  | zero => rfl
  | succ m ih =>
    have ih2 := ih (fun k hk => hne k (Nat.lt_succ_of_lt hk))
    rw [forLoop, acknowledge_other (f m) c _ i _ (hne m (Nat.lt_succ_self m)), ih2]
    unfold stores
    rw [ih2]
    exact hs

theorem udp_cb_slot (env : Env) (conf : Conf) (s : State) (inp : UdpIn) (c i : Nat)
    (hs : stores s.unacked c i) (hna : ¬ acks env c inp) :
    (udp_cb env conf s inp).1.unacked i = s.unacked i := by
  by_cases hn : inp.n < (PAYLOAD_OFFSET : Int)
  · rw [udp_cb_short env conf s inp hn]
  · have hn2 := not_lt.mp hn
    by_cases hd : (env.crypto_decrypt inp.raw inp.n).1 = 0
    · have hv : valid env inp := ⟨hn2, hd⟩
      by_cases hlen : (plain env inp).len = 0
      · by_cases hmode : conf.mode = Mode.server
        · rw [udp_cb_len_zero env conf s inp hmode hn2 hd hlen, heartbeat_unacked]
        · rw [udp_cb_len_zero_client env conf s inp hmode hv hlen]
      · by_cases hdup : (is_dup s.hash (plain env inp).chksum).1 = true
        · rw [udp_cb_dup env conf s inp hv hlen hdup]
        · have hdup2 : (is_dup s.hash (plain env inp).chksum).1 = false := by simpa using hdup
          by_cases hflag : (plain env inp).flag &&& 2 = 0
          · rw [udp_cb_data env conf s inp hv hlen hdup2 hflag,
              (update_remote_rest conf _ _ _).2.1, accepted_unacked]
            by_cases h1 : (plain env inp).flag &&& 1 ≠ 0
            · rw [if_pos h1]
              apply acknowledge_other _ c _ i hs
              intro hc
              apply hna
              unfold acks
              rw [if_neg (not_not.mpr hflag)]
              exact ⟨hv, hlen, h1, hc⟩
            · rw [if_neg h1]
          · rw [udp_cb_bundle env conf s inp hv hlen hdup2 hflag]
            apply acknowledge_loop_other _ c i _ _ hs
            intro k hk hc
            apply hna
            unfold acks
            rw [if_pos hflag]
            exact ⟨hv, hlen, k, hk, hc⟩
    · rw [udp_cb_invalid env conf s inp hn2 hd]

theorem run_two_reads (env : Env) (conf : Conf) (s : State) (p : Pbuf) (i1 i2 : TunIn)
    (t : Int) (u : UdpIn) :
    (run env conf (s, p) [Input.tun i1, Input.tun i2, Input.retrans t, Input.udp u]).1 =
      (udp_cb env conf (retransmit env conf t (tun_cb env conf (tun_cb env conf s p i1).1
        (tun_cb env conf s p i1).2 i2).1) u).1 := by
  simp only [run, List.foldl_cons, List.foldl_nil, step]

theorem two_reads_table :
    fresh_tuns env0 client_conf (init_state client_conf addr_a, zero_pbuf) two_reads ∧
    stores (run env0 client_conf (init_state client_conf addr_a, zero_pbuf)
      two_reads).1.unacked 9 0 ∧
    stores (run env0 client_conf (init_state client_conf addr_a, zero_pbuf)
      two_reads).1.unacked 3 1 := by
  have hn : 0 < tun_in.n := by decide
  have hn2 : 0 < tun_in2.n := by decide
  have h1 : (tun_cb env0 client_conf (init_state client_conf addr_a) zero_pbuf tun_in).1.unacked
      = Function.update (init_state client_conf addr_a).unacked 0
        { send := 1, stime := 0, pbuf := copypkt zero_pbuf
            (tun_build env0 (init_state client_conf addr_a) zero_pbuf tun_in) } := by
    rw [tun_cb_unacked _ _ _ _ _ hn]
    exact tun_record_some _ _ _ 0
      (scan_free_first _ _ 0 (by decide) rfl (fun j hj => absurd hj (Nat.not_lt_zero j)))
  have hc1 : (tun_build env0 (init_state client_conf addr_a) zero_pbuf tun_in).chksum = 9 := by
    decide
  have hk : (tun_cb env0 client_conf (init_state client_conf addr_a) zero_pbuf tun_in).1.ack.count
      = 0 := by
    rw [tun_cb_ack _ _ _ _ _ hn]; rfl
  have hc2 : (tun_build env0
      (tun_cb env0 client_conf (init_state client_conf addr_a) zero_pbuf tun_in).1
      (tun_cb env0 client_conf (init_state client_conf addr_a) zero_pbuf tun_in).2
      tun_in2).chksum = 3 := by
    rw [tun_build_chksum, hk]
    simp [env0, digest0, tun_in2, memcpy, List.range_succ]
  have h2 : (tun_cb env0 client_conf
      (tun_cb env0 client_conf (init_state client_conf addr_a) zero_pbuf tun_in).1
      (tun_cb env0 client_conf (init_state client_conf addr_a) zero_pbuf tun_in).2
      tun_in2).1.unacked =
      Function.update
        (tun_cb env0 client_conf (init_state client_conf addr_a) zero_pbuf tun_in).1.unacked 1
        { send := 1, stime := 0, pbuf := copypkt
            ((tun_cb env0 client_conf (init_state client_conf addr_a) zero_pbuf
              tun_in).1.unacked 1).pbuf
            (tun_build env0
              (tun_cb env0 client_conf (init_state client_conf addr_a) zero_pbuf tun_in).1
              (tun_cb env0 client_conf (init_state client_conf addr_a) zero_pbuf tun_in).2
              tun_in2) } := by
    rw [tun_cb_unacked _ _ _ _ _ hn2]
    refine tun_record_some _ _ _ 1 (scan_free_first _ _ 1 (by decide) ?_ ?_)
    · rw [h1]; rfl
    · intro j hj
      have : j = 0 := by omega
      rw [this, h1]
      simp
  have hfresh : ∀ j, j < UNACKED_LEN →
      ¬ stores (tun_cb env0 client_conf (init_state client_conf addr_a) zero_pbuf
        tun_in).1.unacked (tun_build env0
          (tun_cb env0 client_conf (init_state client_conf addr_a) zero_pbuf tun_in).1
          (tun_cb env0 client_conf (init_state client_conf addr_a) zero_pbuf tun_in).2
          tun_in2).chksum j := by
    intro j _ hs
    unfold stores at hs
    rw [hc2, h1] at hs
    by_cases hj : j = 0
    · rw [hj, Function.update_same] at hs
      have h9 : (copypkt zero_pbuf
          (tun_build env0 (init_state client_conf addr_a) zero_pbuf tun_in)).chksum = 9 := hc1
      rw [h9] at hs
      exact absurd hs.2 (by decide)
    · rw [Function.update_noteq hj] at hs
      exact hs.1 rfl
  have hrun : (run env0 client_conf (init_state client_conf addr_a, zero_pbuf) two_reads).1 =
      (udp_cb env0 client_conf (retransmit env0 client_conf 300 (tun_cb env0 client_conf
        (tun_cb env0 client_conf (init_state client_conf addr_a) zero_pbuf tun_in).1
        (tun_cb env0 client_conf (init_state client_conf addr_a) zero_pbuf tun_in).2
        tun_in2).1) data_in).1 := by
    unfold two_reads
    exact run_two_reads env0 client_conf _ _ tun_in tun_in2 300 data_in
  have hs0 : (tun_cb env0 client_conf
      (tun_cb env0 client_conf (init_state client_conf addr_a) zero_pbuf tun_in).1
      (tun_cb env0 client_conf (init_state client_conf addr_a) zero_pbuf tun_in).2
      tun_in2).1.unacked 0 =
      { send := 1, stime := 0, pbuf := copypkt zero_pbuf
          (tun_build env0 (init_state client_conf addr_a) zero_pbuf tun_in) } := by
    rw [h2, Function.update_noteq (by decide), h1, Function.update_same]
  have hs1 : (tun_cb env0 client_conf
      (tun_cb env0 client_conf (init_state client_conf addr_a) zero_pbuf tun_in).1
      (tun_cb env0 client_conf (init_state client_conf addr_a) zero_pbuf tun_in).2
      tun_in2).1.unacked 1 =
      { send := 1, stime := 0, pbuf := copypkt
          ((tun_cb env0 client_conf (init_state client_conf addr_a) zero_pbuf
            tun_in).1.unacked 1).pbuf
          (tun_build env0
            (tun_cb env0 client_conf (init_state client_conf addr_a) zero_pbuf tun_in).1
            (tun_cb env0 client_conf (init_state client_conf addr_a) zero_pbuf tun_in).2
            tun_in2) } := by
    rw [h2, Function.update_same]
  have hdue : ∀ p : Pbuf, due 300 { send := 1, stime := 0, pbuf := p } :=
    fun _ => ⟨by show (1 : Int) ≠ 0; decide, by show wrap64 (300 - 0) > 200; decide⟩
  have hstep : ∀ p : Pbuf, (slot_step 300 { send := 1, stime := 0, pbuf := p }).send ≠ 0 := by
    intro p
    have h2 : (slot_step 300 { send := 1, stime := 0, pbuf := p }).send = 2 := by
      rw [(slot_step_due 300 _ (hdue p)).1]
      show (if wrap32 (1 + 1) ≥ 4 then 0 else wrap32 (1 + 1)) = (2 : Int)
      decide
    rw [h2]
    decide
  have hfin : ∀ (st : State) (i c : Nat), ¬ acks env0 c data_in → stores st.unacked c i →
      stores (udp_cb env0 client_conf st data_in).1.unacked c i := by
    intro st i c hna hs
    unfold stores
    rw [udp_cb_slot env0 client_conf st data_in c i hs hna]
    exact hs
  have hr0 : stores (retransmit env0 client_conf 300 (tun_cb env0 client_conf
      (tun_cb env0 client_conf (init_state client_conf addr_a) zero_pbuf tun_in).1
      (tun_cb env0 client_conf (init_state client_conf addr_a) zero_pbuf tun_in).2
      tun_in2).1).unacked 9 0 := by
    unfold stores
    rw [retransmit_at _ _ _ _ 0 (by decide), slot_step_pbuf, hs0]
    exact ⟨hstep _, hc1⟩
  have hr1 : stores (retransmit env0 client_conf 300 (tun_cb env0 client_conf
      (tun_cb env0 client_conf (init_state client_conf addr_a) zero_pbuf tun_in).1
      (tun_cb env0 client_conf (init_state client_conf addr_a) zero_pbuf tun_in).2
      tun_in2).1).unacked 3 1 := by
    unfold stores
    rw [retransmit_at _ _ _ _ 1 (by decide), slot_step_pbuf, hs1]
    exact ⟨hstep _, hc2⟩
  have hf : fresh_tuns env0 client_conf (init_state client_conf addr_a, zero_pbuf) two_reads := by
    simp only [two_reads, fresh_tuns, step, and_true]
    exact ⟨fun _ _ _ h => absurd rfl h.1, fun _ => hfresh⟩
  refine ⟨hf, ?_, ?_⟩
  · unfold stores
    rw [hrun]
    revert hr0
    generalize retransmit env0 client_conf 300 _ = st
    exact hfin st 0 9 (by decide)
  · unfold stores
    rw [hrun]
    revert hr1
    generalize retransmit env0 client_conf 300 _ = st
    exact hfin st 1 3 (by decide)

/-- The amended C4 on a run of two reads from tun, a retransmit tick and a data datagram:
slot 0 and slot 1 are in use at the end, with the checksums 9 and 3. -/
theorem unique_checksum_slots_witness :
    uniq (run env0 client_conf (init_state client_conf addr_a, zero_pbuf) two_reads).1.unacked ∧
    stores (run env0 client_conf (init_state client_conf addr_a, zero_pbuf)
      two_reads).1.unacked 9 0 ∧
    stores (run env0 client_conf (init_state client_conf addr_a, zero_pbuf)
      two_reads).1.unacked 3 1 :=
  ⟨unique_checksum_slots env0 client_conf addr_a zero_pbuf two_reads two_reads_table.1,
    two_reads_table.2⟩

end Muon
